import Mathlib

/-!
Verification of the bid ranking, integrity-checking, and order-phase
state-machine subsystem of the import/export marketplace dashboard.

The JavaScript sources (`src/routes/bidding.js`, `src/routes/orders.js`,
and the requirements module) are shallowly embedded: route handlers become
pure functions from an explicit state to `Except`-style results, JS numbers
are modelled as rationals (`ℚ`), timestamps as rationals (milliseconds),
and the in-memory arrays as Lean lists.  Nondeterministic inputs of the
source (the current clock, freshly generated ids, and the random component
of the exporter-reliability score) are passed in as explicit parameters.
-/

namespace Dashboard

/-! ## Currency and time normalization (`bidding.js`, `convertToUSD` / `convertToDays`) -/

/-- Exchange-rate table of `convertToUSD`: `exchangeRates[currency] || 1`,
so unknown currency codes fall back to rate 1. -/
def exchangeRate (currency : String) : ℚ :=
  if currency = "USD" then 1
  else if currency = "EUR" then 1.1
  else if currency = "INR" then 0.012
  else if currency = "GBP" then 1.25
  else if currency = "JPY" then 0.0067
  else if currency = "CNY" then 0.14
  else 1

/-- `convertToUSD(price, currency) = price * (exchangeRates[currency] || 1)`. -/
def convertToUSD (price : ℚ) (currency : String) : ℚ :=
  price * exchangeRate currency

/-- Delivery-time multiplier table of `convertToDays`: `multipliers[unit] || 1`,
so unrecognized units fall back to multiplier 1. -/
def timeMultiplier (unit : String) : ℚ :=
  if unit = "days" then 1
  else if unit = "weeks" then 7
  else if unit = "months" then 30
  else 1

/-- `convertToDays(time, unit) = time * (multipliers[unit] || 1)`. -/
def convertToDays (time : ℚ) (unit : String) : ℚ :=
  time * timeMultiplier unit

/-! ## Data model -/

/-- A bid record as stored in the `bids` array of `bidding.js`.  Fields not
needed by any verified property (free-text terms, attachments) are omitted;
`status` is one of the source's string literals `"active"`, `"accepted"`,
`"rejected"`, `"withdrawn"` (seed data also uses `"submitted"`). -/
structure Bid where
  id : String
  requirementId : String
  exporterId : String
  price : ℚ
  currency : String
  deliveryTime : ℚ
  deliveryTimeUnit : String
  status : String
  acceptedAt : Option ℚ
  createdAt : ℚ
  updatedAt : ℚ
deriving DecidableEq, Repr

/-- A requirement record as stored in the requirements module.  `status` is
one of the source's string literals (`"active"`, `"closed"`, `"awarded"`,
seed data also uses `"open"`). -/
structure Requirement where
  id : String
  importerId : String
  quantity : ℚ
  unit : String
  targetPrice : Option ℚ
  currency : String
  bidDeadline : ℚ
  deliveryLocation : String
  status : String
  bidCount : ℕ
  awardedBidId : Option String
  updatedAt : ℚ
deriving DecidableEq, Repr

/-- The shared in-process store the bidding routes mutate: the `bids` array
of `bidding.js` and the `requirements` array it imports. -/
structure MarketState where
  bids : List Bid
  requirements : List Requirement
deriving DecidableEq, Repr

/-! ## Bid integrity validator (`validateBidIntegrity`) -/

/-- Reason string of the duplicate-exporter rule. -/
def dupReason : String := "Exporter has already submitted a bid for this requirement"

/-- Reason string of the suspicious-price rule. -/
def lowReason : String := "Bid price is suspiciously low"

/-- `validateBidIntegrity(newBid, existingBids)` from `bidding.js`:
first, reject when the same exporter already has any bid (of any status) on
the same requirement; second, when the requirement declares a target price,
reject when the candidate's price in USD is below 10% of the target in USD.
`none` models `{valid: true}`; `some reason` models `{valid: false, reason}`.
The requirements array is passed explicitly (the source reads the imported
module-level `requirements`). -/
def validateBidIntegrity (newBid : Bid) (existingBids : List Bid)
    (reqs : List Requirement) : Option String :=
  let exporterBids := existingBids.filter fun b =>
    b.exporterId == newBid.exporterId && b.requirementId == newBid.requirementId
  if 0 < exporterBids.length then some dupReason
  else
    match reqs.find? (fun r => r.id == newBid.requirementId) with
    | some r =>
      match r.targetPrice with
      | some tp =>
        if convertToUSD newBid.price newBid.currency < convertToUSD tp r.currency * 0.1
        then some lowReason else none
      | none => none
    | none => none

/-! ## Bid ranking (`rankBids`)

`getExporterReliability` in the source depends on the wall clock and on
`Math.random()`; the ranking engine is therefore parameterized here by an
explicit reliability assignment `rel : String → ℚ` (one score per exporter
id), each such assignment being one possible outcome of the source's
random draws. -/

/-- The comparator key of `rankBids`: ascending USD price, then ascending
delivery days, then descending reliability (encoded as ascending negated
reliability). -/
def bidKey (rel : String → ℚ) (b : Bid) : ℚ × ℚ × ℚ :=
  (convertToUSD b.price b.currency,
   convertToDays b.deliveryTime b.deliveryTimeUnit,
   - rel b.exporterId)

/-- Lexicographic `≤` on comparator keys; this is exactly the total preorder
decided by the source's three-level comparator. -/
def keyLE (k₁ k₂ : ℚ × ℚ × ℚ) : Bool :=
  if k₁.1 < k₂.1 then true
  else if k₂.1 < k₁.1 then false
  else if k₁.2.1 < k₂.2.1 then true
  else if k₂.2.1 < k₁.2.1 then false
  else k₁.2.2 ≤ k₂.2.2

/-- Insert a bid into an already-ranked list, before the first element it
compares `≤` to.  Inserting earlier-input elements after later ones this way
yields exactly the stable sort performed by `Array.prototype.sort` under a
consistent comparator. -/
def insertRanked (rel : String → ℚ) (x : Bid) : List Bid → List Bid
  | [] => [x]
  | y :: ys =>
    if keyLE (bidKey rel x) (bidKey rel y) then x :: y :: ys
    else y :: insertRanked rel x ys

/-- `rankBids(bids)`: stable sort by the three-level comparator, for one
fixed reliability assignment. -/
def rankBids (rel : String → ℚ) : List Bid → List Bid
  | [] => []
  | x :: xs => insertRanked rel x (rankBids rel xs)

/-! ## Bid lifecycle operations

Each route handler becomes a function `MarketState → Except BidErr MarketState`.
In the source every error path returns before any mutation, so an `error`
result leaves the store untouched; `runX` wrappers make that explicit. -/

/-- Error taxonomy surfaced by the bidding handlers (HTTP status + message). -/
inductive BidErr where
  | notFound (msg : String)
  | unauthorized (msg : String)
  | stateConflict (msg : String)
  | integrityViolation (msg : String)
deriving DecidableEq, Repr

/-- Update the first element of a list satisfying `p` (the source's
`findIndex` followed by an indexed assignment). -/
def updateFirst (p : α → Bool) (f : α → α) : List α → List α
  | [] => []
  | x :: xs => if p x then f x :: xs else x :: updateFirst p f xs

/-- Payload of `submitBid` after express-validator has passed (the routes
only reach the handler body with a well-typed body). -/
structure BidPayload where
  requirementId : String
  price : ℚ
  currency : String
  deliveryTime : ℚ
  deliveryTimeUnit : String
deriving DecidableEq, Repr

/-- `submitBid` from `bidding.js`: requirement must exist, be `"active"`,
its deadline must not have passed, the caller must not own it, and the new
bid (status `"active"`) must pass `validateBidIntegrity`; on success the bid
is appended and the requirement's `bidCount` incremented.  `now` is the
current clock and `newId` the freshly generated uuid. -/
def submitBid (now : ℚ) (caller : String) (newId : String) (p : BidPayload)
    (s : MarketState) : Except BidErr MarketState :=
  match s.requirements.find? (fun r => r.id == p.requirementId) with
  | none => .error (.notFound "Requirement not found")
  | some r =>
    if r.status ≠ "active" then
      .error (.stateConflict "Requirement is not accepting bids")
    else if r.bidDeadline < now then
      .error (.stateConflict "Bid deadline has passed")
    else if r.importerId = caller then
      .error (.stateConflict "Cannot bid on your own requirement")
    else
      let newBid : Bid :=
        { id := newId, requirementId := p.requirementId, exporterId := caller,
          price := p.price, currency := p.currency,
          deliveryTime := p.deliveryTime, deliveryTimeUnit := p.deliveryTimeUnit,
          status := "active", acceptedAt := none, createdAt := now, updatedAt := now }
      match validateBidIntegrity newBid s.bids s.requirements with
      | some reason => .error (.integrityViolation reason)
      | none =>
        .ok { bids := s.bids ++ [newBid],
              requirements := updateFirst (fun r => r.id == p.requirementId)
                (fun r => { r with bidCount := r.bidCount + 1, updatedAt := now })
                s.requirements }

/-- Payload of `updateBid`; `none` models an absent (or falsy) field, in
which case the stored value is kept. -/
structure BidUpdate where
  price : Option ℚ
  currency : Option String
  deliveryTime : Option ℚ
  deliveryTimeUnit : Option String
deriving DecidableEq, Repr

/-- `updateBid` from `bidding.js`: only the owning exporter, only while the
bid is `"active"`, the requirement still `"active"` and its deadline not
passed; overwrites the commercial fields, leaves `status` untouched. -/
def updateBid (now : ℚ) (caller : String) (id : String) (u : BidUpdate)
    (s : MarketState) : Except BidErr MarketState :=
  match s.bids.find? (fun b => b.id == id && b.exporterId == caller) with
  | none => .error (.notFound "Bid not found or unauthorized")
  | some bid =>
    if bid.status ≠ "active" then
      .error (.stateConflict "Cannot update inactive bid")
    else
      match s.requirements.find? (fun r => r.id == bid.requirementId) with
      | none => .error (.stateConflict "Requirement is no longer accepting bids")
      | some r =>
        if r.status ≠ "active" then
          .error (.stateConflict "Requirement is no longer accepting bids")
        else if r.bidDeadline < now then
          .error (.stateConflict "Bid deadline has passed")
        else
          .ok { s with
            bids := updateFirst (fun b => b.id == id && b.exporterId == caller)
              (fun b => { b with
                          price := u.price.getD b.price,
                          currency := u.currency.getD b.currency,
                          deliveryTime := u.deliveryTime.getD b.deliveryTime,
                          deliveryTimeUnit := u.deliveryTimeUnit.getD b.deliveryTimeUnit,
                          updatedAt := now }) s.bids }

/-- `withdrawBid` from `bidding.js`: only the owning exporter, only from
`"active"`; sets the status to `"withdrawn"` and decrements the
requirement's `bidCount` (floored at 0, which on `ℕ` is truncated
subtraction). -/
def withdrawBid (now : ℚ) (caller : String) (id : String)
    (s : MarketState) : Except BidErr MarketState :=
  match s.bids.find? (fun b => b.id == id && b.exporterId == caller) with
  | none => .error (.notFound "Bid not found or unauthorized")
  | some bid =>
    if bid.status ≠ "active" then
      .error (.stateConflict "Cannot withdraw inactive bid")
    else
      .ok { bids := updateFirst (fun b => b.id == id && b.exporterId == caller)
              (fun b => { b with status := "withdrawn", updatedAt := now }) s.bids,
            requirements := updateFirst (fun r => r.id == bid.requirementId)
              (fun r => { r with bidCount := r.bidCount - 1, updatedAt := now })
              s.requirements }

/-- `acceptBid` from `bidding.js`: the caller must own the (existing)
requirement of the (existing) bid, both must be `"active"`.  Effects: the
target bid becomes `"accepted"` with `acceptedAt`; every other bid on the
same requirement whose status is `"active"` becomes `"rejected"`; the
requirement becomes `"awarded"` with `awardedBidId` set. -/
def acceptBid (now : ℚ) (caller : String) (id : String)
    (s : MarketState) : Except BidErr MarketState :=
  match s.bids.find? (fun b => b.id == id) with
  | none => .error (.notFound "Bid not found")
  | some bid =>
    match s.requirements.find? (fun r => r.id == bid.requirementId) with
    | none => .error (.unauthorized "Unauthorized to accept this bid")
    | some r =>
      if r.importerId ≠ caller then
        .error (.unauthorized "Unauthorized to accept this bid")
      else if r.status ≠ "active" then
        .error (.stateConflict "Requirement is not active")
      else if bid.status ≠ "active" then
        .error (.stateConflict "Bid is not active")
      else
        let bids₁ := updateFirst (fun b => b.id == id)
          (fun b => { b with
                      status := "accepted", acceptedAt := some now,
                      updatedAt := now }) s.bids
        let bids₂ := bids₁.map fun b =>
          if b.requirementId == bid.requirementId && b.id != id && b.status == "active"
          then { b with status := "rejected", updatedAt := now } else b
        .ok { bids := bids₂,
              requirements := updateFirst (fun r => r.id == bid.requirementId)
                (fun r => { r with
                            status := "awarded", awardedBidId := some id,
                            updatedAt := now }) s.requirements }

/-- Run `acceptBid` as the route does: an error response leaves the store
untouched (all error paths in the source return before any mutation). -/
def runAcceptBid (now : ℚ) (caller : String) (id : String)
    (s : MarketState) : MarketState :=
  match acceptBid now caller id s with
  | .ok s' => s'
  | .error _ => s

/-! ## Reachability over the bidding subsystem -/

/-- One successful mutating bidding operation, with arbitrary clock,
caller, id and payload inputs. -/
inductive MarketStep : MarketState → MarketState → Prop where
  | submit (now caller newId p) :
      submitBid now caller newId p s = .ok s' → MarketStep s s'
  | update (now caller id u) :
      updateBid now caller id u s = .ok s' → MarketStep s s'
  | withdraw (now caller id) :
      withdrawBid now caller id s = .ok s' → MarketStep s s'
  | accept (now caller id) :
      acceptBid now caller id s = .ok s' → MarketStep s s'

/-- States reachable by any sequence of submit/update/withdraw/accept. -/
def MarketReachable : MarketState → MarketState → Prop :=
  Relation.ReflTransGen MarketStep

/-- Does bid `b` count as an accepted bid on requirement `rid`? -/
def isAcceptedOn (rid : String) (b : Bid) : Bool :=
  b.requirementId == rid && b.status == "accepted"

/-- Number of bids with status `"accepted"` on requirement `rid`. -/
def acceptedCount (bids : List Bid) (rid : String) : ℕ :=
  (bids.filter (isAcceptedOn rid)).length

/-- The acceptance invariant: every requirement id carries at most one
accepted bid, and a requirement record that is still `"active"` carries
none. -/
def MarketInv (s : MarketState) : Prop :=
  ∀ rid : String,
    acceptedCount s.bids rid ≤ 1 ∧
    (∀ r, s.requirements.find? (fun r => r.id == rid) = some r →
      r.status = "active" → acceptedCount s.bids rid = 0)

/-! ## Order phase state machine (`orders.js`) -/

/-- The fixed phase sequence `ORDER_PHASES`. -/
inductive Phase where
  | confirmation | payment | production | inspection | shipping | delivery
deriving DecidableEq, Repr

/-- `ORDER_PHASES` as a list, in source order. -/
def ORDER_PHASES : List Phase :=
  [.confirmation, .payment, .production, .inspection, .shipping, .delivery]

/-- `ORDER_PHASES.indexOf(p)` (every `Phase` value occurs in the list, so
the `-1` branch of `indexOf` is unreachable). -/
def phaseIdx : Phase → ℕ
  | .confirmation => 0
  | .payment => 1
  | .production => 2
  | .inspection => 3
  | .shipping => 4
  | .delivery => 5

/-- Per-phase record of an order (`order.phases[p]`); `status` is one of
`"not_started"`, `"pending"`, `"completed"`; documents are kept as ids. -/
structure PhaseInfo where
  status : String
  startedAt : Option ℚ
  completedAt : Option ℚ
  documents : List String
  notes : String
  updatedBy : Option String
deriving DecidableEq, Repr

/-- The `phases` object of an order: one record per named phase. -/
structure Phases where
  confirmation : PhaseInfo
  payment : PhaseInfo
  production : PhaseInfo
  inspection : PhaseInfo
  shipping : PhaseInfo
  delivery : PhaseInfo
deriving DecidableEq, Repr

/-- Read `order.phases[p]`. -/
def Phases.get (ps : Phases) : Phase → PhaseInfo
  | .confirmation => ps.confirmation
  | .payment => ps.payment
  | .production => ps.production
  | .inspection => ps.inspection
  | .shipping => ps.shipping
  | .delivery => ps.delivery

/-- Write `order.phases[p] = i`. -/
def Phases.set (ps : Phases) : Phase → PhaseInfo → Phases
  | .confirmation, i => { ps with confirmation := i }
  | .payment, i => { ps with payment := i }
  | .production, i => { ps with production := i }
  | .inspection, i => { ps with inspection := i }
  | .shipping, i => { ps with shipping := i }
  | .delivery, i => { ps with delivery := i }

/-- An order record from `orders.js`; `status` is one of `"active"`,
`"completed"`, `"cancelled"`, `"disputed"`. -/
structure Order where
  id : String
  bidId : String
  requirementId : String
  exporterId : String
  importerId : String
  quantity : ℚ
  unit : String
  price : ℚ
  currency : String
  totalValue : ℚ
  deliveryLocation : String
  deliveryTime : ℚ
  deliveryTimeUnit : String
  estimatedDelivery : ℚ
  currentPhase : Phase
  status : String
  phases : Phases
  cancellationReason : Option String
  cancelledBy : Option String
  cancelledAt : Option ℚ
  createdAt : ℚ
  updatedAt : ℚ
deriving DecidableEq, Repr

/-- A user record (only the fields the order routes read). -/
structure User where
  id : String
  role : String
deriving DecidableEq, Repr

/-- A fresh phase record with the given status. -/
def freshPhase (status : String) (startedAt : Option ℚ) : PhaseInfo :=
  { status := status, startedAt := startedAt, completedAt := none,
    documents := [], notes := "", updatedBy := none }

/-- `createOrderFromBid(bidId)` from `orders.js`: requires a bid with the
given id *and* status `"accepted"`, its requirement, and both counterparty
users; builds the order with `totalValue = bid.price * requirement.quantity`,
`estimatedDelivery = now + deliveryTime * (days→1 | weeks→7 | otherwise 30) *
86400000` (the source works in epoch milliseconds), status `"active"`,
current phase `confirmation` as `"pending"` started now, all later phases
`"not_started"`. -/
def createOrderFromBid (now : ℚ) (newId : String) (bidId : String)
    (bids : List Bid) (reqs : List Requirement) (users : List User) :
    Except String Order :=
  match bids.find? (fun b => b.id == bidId && b.status == "accepted") with
  | none => .error "Accepted bid not found"
  | some bid =>
    match reqs.find? (fun r => r.id == bid.requirementId) with
    | none => .error "Requirement not found"
    | some r =>
      if (users.find? (fun u => u.id == bid.exporterId)).isNone ∨
         (users.find? (fun u => u.id == r.importerId)).isNone then
        .error "User not found"
      else
        .ok { id := newId, bidId := bid.id, requirementId := r.id,
              exporterId := bid.exporterId, importerId := r.importerId,
              quantity := r.quantity, unit := r.unit,
              price := bid.price, currency := bid.currency,
              totalValue := bid.price * r.quantity,
              deliveryLocation := r.deliveryLocation,
              deliveryTime := bid.deliveryTime,
              deliveryTimeUnit := bid.deliveryTimeUnit,
              estimatedDelivery := now + bid.deliveryTime *
                (if bid.deliveryTimeUnit = "days" then 1
                 else if bid.deliveryTimeUnit = "weeks" then 7 else 30) * 86400000,
              currentPhase := .confirmation, status := "active",
              phases := { confirmation := freshPhase "pending" (some now),
                          payment := freshPhase "not_started" none,
                          production := freshPhase "not_started" none,
                          inspection := freshPhase "not_started" none,
                          shipping := freshPhase "not_started" none,
                          delivery := freshPhase "not_started" none },
              cancellationReason := none, cancelledBy := none, cancelledAt := none,
              createdAt := now, updatedAt := now }

/-- Replace the record of phase `p` in order `o`
(`order.phases[p] = i` in the source). -/
def setPhaseInfo (o : Order) (p : Phase) (i : PhaseInfo) : Order :=
  { o with phases := o.phases.set p i }

/-- Tail shared by both branches of `updateOrderPhase`: the
notes/documents/estimated-delivery updates and the delivery-completion
check that follow the optional phase transition in the source. -/
def finishOrderUpdate (now : ℚ) (userId : String) (notes : Option String)
    (estDelivery : Option ℚ) (docs : List String) (o : Order) : Order :=
  let o₁ := match notes with
    | some n =>
      setPhaseInfo o o.currentPhase { o.phases.get o.currentPhase with notes := n }
    | none => o
  let o₂ := if docs.isEmpty then o₁ else
    setPhaseInfo o₁ o₁.currentPhase
      { o₁.phases.get o₁.currentPhase with
        documents := (o₁.phases.get o₁.currentPhase).documents ++ docs }
  let o₃ := match estDelivery with
    | some e => { o₂ with estimatedDelivery := e }
    | none => o₂
  let o₄ : Order := { setPhaseInfo o₃ o₃.currentPhase
                        { o₃.phases.get o₃.currentPhase with updatedBy := some userId } with
                      updatedAt := now }
  if o₄.currentPhase = .delivery ∧ (o₄.phases.get .delivery).status = "completed"
  then { o₄ with status := "completed" } else o₄

/-- `updateOrderPhase` from `orders.js`, acting on the single targeted
order (the route's lookup of the order by id and party is the outer
`exporterId/importerId` check).  With an explicit target phase: regression
and skipping are rejected; otherwise the current phase is completed (when
pending) and, on a strict forward move, the target phase is opened as
pending and becomes current. -/
def updateOrderPhase (now : ℚ) (userId : String) (phase : Option Phase)
    (notes : Option String) (estDelivery : Option ℚ) (docs : List String)
    (o : Order) : Except String Order :=
  if o.exporterId ≠ userId ∧ o.importerId ≠ userId then
    .error "Order not found or unauthorized"
  else if o.status ≠ "active" then
    .error "Cannot update inactive order"
  else
    match phase with
    | none => .ok (finishOrderUpdate now userId notes estDelivery docs o)
    | some ph =>
      if phaseIdx ph < phaseIdx o.currentPhase then
        .error "Cannot move to previous phase"
      else if phaseIdx o.currentPhase + 1 < phaseIdx ph then
        .error "Cannot skip phases"
      else
        let o₁ := if (o.phases.get o.currentPhase).status = "pending" then
            setPhaseInfo o o.currentPhase
              { o.phases.get o.currentPhase with
                status := "completed", completedAt := some now,
                updatedBy := some userId }
          else o
        let o₂ := if phaseIdx o.currentPhase < phaseIdx ph then
            { setPhaseInfo o₁ ph
                { o₁.phases.get ph with
                  status := "pending", startedAt := some now,
                  updatedBy := some userId } with
              currentPhase := ph }
          else o₁
        .ok (finishOrderUpdate now userId notes estDelivery docs o₂)

/-- `uploadOrderDocuments` from `orders.js`: append documents to an
arbitrary phase of an active order; phase statuses are untouched. -/
def uploadOrderDocuments (now : ℚ) (userId : String) (ph : Phase)
    (docs : List String) (o : Order) : Except String Order :=
  if o.exporterId ≠ userId ∧ o.importerId ≠ userId then
    .error "Order not found or unauthorized"
  else if o.status ≠ "active" then
    .error "Cannot upload documents to inactive order"
  else if docs.isEmpty then
    .error "No documents uploaded"
  else
    .ok { o with
          phases := o.phases.set ph
            { o.phases.get ph with
              documents := (o.phases.get ph).documents ++ docs,
              updatedBy := some userId },
          updatedAt := now }

/-- `cancelOrder` from `orders.js`: only a counterparty, only while the
order is `"active"` and the current phase's index is at most 2 (the index
of `production`); records reason, actor and instant. -/
def cancelOrder (now : ℚ) (userId : String) (reason : Option String)
    (o : Order) : Except String Order :=
  if o.exporterId ≠ userId ∧ o.importerId ≠ userId then
    .error "Order not found or unauthorized"
  else if o.status ≠ "active" then
    .error "Cannot cancel inactive order"
  else if 2 < phaseIdx o.currentPhase then
    .error "Cannot cancel order in current phase"
  else
    .ok { o with
          status := "cancelled",
          cancellationReason := some (reason.getD ""),
          cancelledBy := some userId,
          cancelledAt := some now,
          updatedAt := now }

/-- Run `cancelOrder` as the route does: error responses leave the order
untouched. -/
def runCancelOrder (now : ℚ) (userId : String) (reason : Option String)
    (o : Order) : Order :=
  match cancelOrder now userId reason o with
  | .ok o' => o'
  | .error _ => o

/-- One successful mutating operation on a single order. -/
inductive OrderStep : Order → Order → Prop where
  | advance (now userId phase notes estDelivery docs) :
      updateOrderPhase now userId phase notes estDelivery docs o = .ok o' →
      OrderStep o o'
  | attach (now userId ph docs) :
      uploadOrderDocuments now userId ph docs o = .ok o' → OrderStep o o'
  | cancel (now userId reason) :
      cancelOrder now userId reason o = .ok o' → OrderStep o o'

/-- Order states reachable by any sequence of phase-advance,
document-attach, and cancel operations. -/
def OrderReachable : Order → Order → Prop :=
  Relation.ReflTransGen OrderStep

/-- Number of phases of `o` whose sub-status is `"pending"`. -/
def pendingCount (o : Order) : ℕ :=
  (ORDER_PHASES.filter fun p => (o.phases.get p).status == "pending").length

/-- The phase-layout invariant that actually holds on reachable active
orders: phases before the current one are completed, phases after it are
not started, and the current phase is pending or completed. -/
def OrderInv (o : Order) : Prop :=
  o.status = "active" →
    (∀ p : Phase, phaseIdx p < phaseIdx o.currentPhase →
      (o.phases.get p).status = "completed") ∧
    (∀ p : Phase, phaseIdx o.currentPhase < phaseIdx p →
      (o.phases.get p).status = "not_started") ∧
    ((o.phases.get o.currentPhase).status = "pending" ∨
     (o.phases.get o.currentPhase).status = "completed")

/-! ## List helper lemmas for the in-place array updates -/

theorem updateFirst_of_find?_none {p : α → Bool} {f : α → α} {l : List α}
    (h : l.find? p = none) : updateFirst p f l = l := by
  induction l with
  | nil => rfl
  | cons x xs ih =>
    rw [List.find?_cons] at h
    cases hx : p x with
    | true => simp [hx] at h
    | false =>
      simp only [hx] at h
      simp [updateFirst, hx, ih h]

theorem find?_updateFirst_self {p : α → Bool} {f : α → α} {l : List α} {x : α}
    (h : l.find? p = some x) (hf : p (f x) = true) :
    (updateFirst p f l).find? p = some (f x) := by
  induction l with
  | nil => simp at h
  | cons y ys ih =>
    rw [List.find?_cons] at h
    cases hy : p y with
    | true =>
      simp only [hy] at h
      cases h
      simp [updateFirst, hy, List.find?_cons, hf]
    | false =>
      simp only [hy] at h
      simp [updateFirst, hy, List.find?_cons, ih h]

theorem find?_updateFirst_other {p q : α → Bool} {f : α → α} {l : List α} {x : α}
    (h : l.find? q = some x) (hx : p x = false) (hfx : p (f x) = false) :
    (updateFirst q f l).find? p = l.find? p := by
  induction l with
  | nil => simp at h
  | cons y ys ih =>
    rw [List.find?_cons] at h
    cases hy : q y with
    | true =>
      simp only [hy] at h
      cases h
      simp [updateFirst, hy, List.find?_cons, hx, hfx]
    | false =>
      simp only [hy] at h
      cases hpy : p y with
      | true => simp [updateFirst, hy, List.find?_cons, hpy]
      | false => simp [updateFirst, hy, List.find?_cons, hpy, ih h]

theorem mem_updateFirst_of_neg {p : α → Bool} {f : α → α} {l : List α} {b : α}
    (hb : b ∈ l) (hp : p b = false) : b ∈ updateFirst p f l := by
  induction l with
  | nil => simp at hb
  | cons y ys ih =>
    rcases List.mem_cons.mp hb with rfl | hmem
    · simp [updateFirst, hp]
    · cases hy : p y with
      | true =>
        simp only [updateFirst, hy, if_pos]
        exact List.mem_cons_of_mem _ hmem
      | false =>
        simp only [updateFirst, hy, if_neg, Bool.false_eq_true, not_false_iff]
        exact List.mem_cons_of_mem _ (ih hmem)

theorem length_filter_updateFirst {A p : α → Bool} {f : α → α} {l : List α} {x : α}
    (h : l.find? p = some x) :
    ((updateFirst p f l).filter A).length + (if A x then 1 else 0)
      = (l.filter A).length + (if A (f x) then 1 else 0) := by
  induction l with
  | nil => simp at h
  | cons y ys ih =>
    rw [List.find?_cons] at h
    cases hy : p y with
    | true =>
      simp only [hy] at h
      injection h with h'
      subst h'
      simp only [updateFirst, hy, if_pos, List.filter_cons]
      by_cases hAy : A y <;> by_cases hAfy : A (f y) <;>
        simp [hAy, hAfy]
    | false =>
      simp only [hy] at h
      have ih' := ih h
      simp only [updateFirst, hy, Bool.false_eq_true, if_neg, not_false_iff,
        List.filter_cons]
      by_cases hAy : A y <;> simp [hAy] <;> omega

theorem find?_map_of_pred_eq {p : α → Bool} {g : α → α} {l : List α}
    (hg : ∀ b, p (g b) = p b) :
    (l.map g).find? p = (l.find? p).map g := by
  induction l with
  | nil => rfl
  | cons y ys ih =>
    cases hy : p y with
    | true => simp [List.find?_cons, hy, hg y]
    | false => simp [List.find?_cons, hy, hg y, ih]

theorem length_filter_map_of_pred_eq {A : α → Bool} {g : α → α} {l : List α}
    (hg : ∀ b, A (g b) = A b) :
    ((l.map g).filter A).length = (l.filter A).length := by
  induction l with
  | nil => rfl
  | cons y ys ih =>
    by_cases hy : A y <;> simp [List.filter_cons, hy, hg y, ih]

/-! ## Preservation of the acceptance invariant -/

theorem isAcceptedOn_false_of_status {rid : String} {b : Bid}
    (h : b.status ≠ "accepted") : isAcceptedOn rid b = false := by
  simp [isAcceptedOn, h]

theorem acceptedCount_append_inactive {l : List Bid} {b : Bid} {rid : String}
    (h : b.status ≠ "accepted") :
    acceptedCount (l ++ [b]) rid = acceptedCount l rid := by
  simp [acceptedCount, List.filter_append, isAcceptedOn_false_of_status h]

/-- Looking a requirement up by id after an id-preserving in-place update
finds either the old record or its updated version, at the same position. -/
theorem find?_req_updateFirst {reqs : List Requirement} {rid₀ : String}
    {g : Requirement → Requirement} (hg : ∀ r, (g r).id = r.id)
    {rid : String} {r' : Requirement}
    (hpost : (updateFirst (fun r => r.id == rid₀) g reqs).find?
      (fun r => r.id == rid) = some r') :
    ∃ r, reqs.find? (fun r => r.id == rid) = some r ∧ (r' = r ∨ r' = g r) := by
  cases hq : reqs.find? (fun r => r.id == rid₀) with
  | none =>
    rw [updateFirst_of_find?_none hq] at hpost
    exact ⟨r', hpost, Or.inl rfl⟩
  | some r₀ =>
    by_cases hr : rid₀ = rid
    · subst hr
      have h0 := List.find?_some (p := fun r : Requirement => r.id == rid₀) hq
      have hid : ((g r₀).id == rid₀) = true := by rw [hg]; exact h0
      rw [find?_updateFirst_self hq hid] at hpost
      injection hpost with h'
      exact ⟨r₀, hq, Or.inr h'.symm⟩
    · have h0 := List.find?_some (p := fun r : Requirement => r.id == rid₀) hq
      have hid : r₀.id = rid₀ := by simpa using h0
      have hx : (r₀.id == rid) = false := by
        simp [hid]; exact fun hc => hr hc
      have hfx : ((g r₀).id == rid) = false := by rw [hg]; exact hx
      rw [find?_updateFirst_other hq hx hfx] at hpost
      exact ⟨r', hpost, Or.inl rfl⟩

/-- Updating bids in place preserves the accepted-count whenever the
update function preserves the accepted-on predicate on the bids it may
touch. -/
theorem acceptedCount_updateFirst_congr {p : Bid → Bool} {f : Bid → Bid}
    {l : List Bid} {rid : String}
    (hA : ∀ b, p b = true → isAcceptedOn rid (f b) = isAcceptedOn rid b) :
    acceptedCount (updateFirst p f l) rid = acceptedCount l rid := by
  induction l with
  | nil => rfl
  | cons y ys ih =>
    cases hy : p y with
    | true =>
      simp only [acceptedCount, updateFirst, hy, if_pos, List.filter_cons, hA y hy]
      cases isAcceptedOn rid y <;> simp [acceptedCount] at ih ⊢
    | false =>
      simp only [acceptedCount, updateFirst, hy, Bool.false_eq_true, if_neg,
        not_false_iff, List.filter_cons]
      cases isAcceptedOn rid y <;> simp [acceptedCount] at ih ⊢ <;> omega

theorem submitBid_inv {now : ℚ} {c i : String} {p : BidPayload}
    {s s' : MarketState} (h : MarketInv s)
    (hok : submitBid now c i p s = .ok s') : MarketInv s' := by
  simp only [submitBid] at hok
  split at hok
  · cases hok
  rename_i r hfind
  split at hok
  · cases hok
  split at hok
  · cases hok
  split at hok
  · cases hok
  split at hok
  · cases hok
  injection hok with hok'
  subst hok'
  intro rid
  have hcnt : ∀ rid', acceptedCount
      (s.bids ++ [{ id := i, requirementId := p.requirementId, exporterId := c,
                    price := p.price, currency := p.currency,
                    deliveryTime := p.deliveryTime,
                    deliveryTimeUnit := p.deliveryTimeUnit,
                    status := "active", acceptedAt := none, createdAt := now,
                    updatedAt := now }]) rid' = acceptedCount s.bids rid' :=
    fun rid' => acceptedCount_append_inactive (by simp)
  refine ⟨by rw [hcnt]; exact (h rid).1, ?_⟩
  intro r' hfind' hact
  obtain ⟨r₁, hr₁, hcase⟩ := find?_req_updateFirst
    (g := fun r => { r with bidCount := r.bidCount + 1, updatedAt := now })
    (fun _ => rfl) hfind'
  have hst : r₁.status = "active" := by
    rcases hcase with rfl | rfl
    · exact hact
    · exact hact
  rw [hcnt]
  exact (h rid).2 r₁ hr₁ hst

theorem updateBid_inv {now : ℚ} {c i : String} {u : BidUpdate}
    {s s' : MarketState} (h : MarketInv s)
    (hok : updateBid now c i u s = .ok s') : MarketInv s' := by
  simp only [updateBid] at hok
  split at hok
  · cases hok
  split at hok
  · cases hok
  split at hok
  · cases hok
  split at hok
  · cases hok
  split at hok
  · cases hok
  injection hok with hok'
  subst hok'
  intro rid
  have hcnt : acceptedCount (updateFirst (fun b => b.id == i && b.exporterId == c)
      (fun b => { b with
                  price := u.price.getD b.price,
                  currency := u.currency.getD b.currency,
                  deliveryTime := u.deliveryTime.getD b.deliveryTime,
                  deliveryTimeUnit := u.deliveryTimeUnit.getD b.deliveryTimeUnit,
                  updatedAt := now }) s.bids) rid = acceptedCount s.bids rid :=
    acceptedCount_updateFirst_congr (fun b _ => by simp [isAcceptedOn])
  exact ⟨by rw [hcnt]; exact (h rid).1,
         fun r' hf ha => by rw [hcnt]; exact (h rid).2 r' hf ha⟩

theorem withdrawBid_inv {now : ℚ} {c i : String}
    {s s' : MarketState} (h : MarketInv s)
    (hok : withdrawBid now c i s = .ok s') : MarketInv s' := by
  simp only [withdrawBid] at hok
  split at hok
  · cases hok
  rename_i bid hb
  split at hok
  · cases hok
  rename_i h1
  have hact : bid.status = "active" := not_not.mp h1
  injection hok with hok'
  subst hok'
  intro rid
  have hlen := length_filter_updateFirst (A := isAcceptedOn rid)
    (f := fun b => { b with status := "withdrawn", updatedAt := now }) hb
  rw [isAcceptedOn_false_of_status (by rw [hact]; decide),
      isAcceptedOn_false_of_status (b := { bid with status := "withdrawn", updatedAt := now })
        (by decide : ("withdrawn" : String) ≠ "accepted")] at hlen
  simp only [if_neg, Bool.false_eq_true, not_false_iff, Nat.add_zero] at hlen
  have hcnt : acceptedCount (updateFirst (fun b => b.id == i && b.exporterId == c)
      (fun b => { b with status := "withdrawn", updatedAt := now }) s.bids) rid
      = acceptedCount s.bids rid := hlen
  refine ⟨by rw [hcnt]; exact (h rid).1, ?_⟩
  intro r' hfind' hact'
  obtain ⟨r₁, hr₁, hcase⟩ := find?_req_updateFirst
    (g := fun r => { r with bidCount := r.bidCount - 1, updatedAt := now })
    (fun _ => rfl) hfind'
  have hst : r₁.status = "active" := by
    rcases hcase with rfl | rfl
    · exact hact'
    · exact hact'
  rw [hcnt]
  exact (h rid).2 r₁ hr₁ hst

theorem acceptBid_inv {now : ℚ} {c i : String}
    {s s' : MarketState} (h : MarketInv s)
    (hok : acceptBid now c i s = .ok s') : MarketInv s' := by
  simp only [acceptBid] at hok
  split at hok
  · cases hok
  rename_i bid hb
  split at hok
  · cases hok
  rename_i r hr
  split at hok
  · cases hok
  rename_i h1
  split at hok
  · cases hok
  rename_i h2
  split at hok
  · cases hok
  rename_i h3
  have hrstat : r.status = "active" := not_not.mp h2
  have hbstat : bid.status = "active" := not_not.mp h3
  injection hok with hok'
  subst hok'
  intro rid
  have hg₂ : ∀ b, isAcceptedOn rid
      (if b.requirementId == bid.requirementId && b.id != i && b.status == "active"
       then { b with status := "rejected", updatedAt := now } else b)
      = isAcceptedOn rid b := by
    intro b
    split
    · rename_i hcond
      simp only [Bool.and_eq_true, beq_iff_eq, bne_iff_ne] at hcond
      rw [isAcceptedOn_false_of_status
            (by decide : ("rejected" : String) ≠ "accepted"),
          isAcceptedOn_false_of_status (by rw [hcond.2]; decide)]
    · rfl
  have hmap := length_filter_map_of_pred_eq
    (l := updateFirst (fun b => b.id == i)
      (fun b => { b with
                  status := "accepted", acceptedAt := some now,
                  updatedAt := now }) s.bids)
    hg₂
  have hlen := length_filter_updateFirst (A := isAcceptedOn rid)
    (f := fun b => { b with
                     status := "accepted", acceptedAt := some now,
                     updatedAt := now }) hb
  rw [isAcceptedOn_false_of_status (by rw [hbstat]; decide)] at hlen
  simp only [if_neg, Bool.false_eq_true, not_false_iff, Nat.add_zero] at hlen
  by_cases hcase : bid.requirementId = rid
  · subst hcase
    have hcnt₀ : acceptedCount s.bids bid.requirementId = 0 := (h _).2 r hr hrstat
    have hfb : isAcceptedOn bid.requirementId
        { bid with status := "accepted", acceptedAt := some now, updatedAt := now } = true := by
      simp [isAcceptedOn]
    rw [hfb] at hlen
    have hlen' : (List.filter (isAcceptedOn bid.requirementId)
        (updateFirst (fun b => b.id == i)
          (fun b => { b with
                      status := "accepted", acceptedAt := some now,
                      updatedAt := now }) s.bids)).length
        = (List.filter (isAcceptedOn bid.requirementId) s.bids).length + 1 := by
      simpa using hlen
    constructor
    · show acceptedCount _ bid.requirementId ≤ 1
      unfold acceptedCount at hcnt₀ ⊢
      rw [hmap, hlen']
      omega
    · intro r' hfind' hact'
      have h0 := List.find?_some (p := fun x : Requirement => x.id == bid.requirementId) hr
      have hid : (({ r with
                     status := "awarded", awardedBidId := some i,
                     updatedAt := now } : Requirement).id == bid.requirementId) = true := h0
      rw [find?_updateFirst_self hr hid] at hfind'
      injection hfind' with h'
      rw [← h'] at hact'
      exact absurd hact' (by decide : ("awarded" : String) ≠ "active")
  · have hfb : isAcceptedOn rid
        { bid with status := "accepted", acceptedAt := some now, updatedAt := now } = false := by
      simp [isAcceptedOn, hcase]
    rw [hfb] at hlen
    have hlen' : (List.filter (isAcceptedOn rid)
        (updateFirst (fun b => b.id == i)
          (fun b => { b with
                      status := "accepted", acceptedAt := some now,
                      updatedAt := now }) s.bids)).length
        = (List.filter (isAcceptedOn rid) s.bids).length := by
      simpa using hlen
    constructor
    · show acceptedCount _ rid ≤ 1
      unfold acceptedCount
      rw [hmap, hlen']
      exact (h rid).1
    · intro r' hfind' hact'
      obtain ⟨r₁, hr₁, hc⟩ := find?_req_updateFirst
        (g := fun x => { x with
                         status := "awarded", awardedBidId := some i,
                         updatedAt := now })
        (fun _ => rfl) hfind'
      rcases hc with rfl | rfl
      · show acceptedCount _ rid = 0
        have hpre : acceptedCount s.bids rid = 0 := (h rid).2 _ hr₁ hact'
        unfold acceptedCount at hpre ⊢
        rw [hmap, hlen']
        exact hpre
      · exact absurd hact' (by decide : ("awarded" : String) ≠ "active")

/-- Every single mutating bidding operation preserves the acceptance
invariant. -/
theorem marketStep_inv {s s' : MarketState} (h : MarketInv s)
    (hs : MarketStep s s') : MarketInv s' := by
  cases hs with
  | submit now c i p hok => exact submitBid_inv h hok
  | update now c i u hok => exact updateBid_inv h hok
  | withdraw now c i hok => exact withdrawBid_inv h hok
  | accept now c i hok => exact acceptBid_inv h hok

end Dashboard

namespace Dashboard

/-! ## Ranking: permutation and stability lemmas -/

theorem keyLE_refl (k : ℚ × ℚ × ℚ) : keyLE k k = true := by
  simp [keyLE]

theorem insertRanked_perm (rel : String → ℚ) (x : Bid) (l : List Bid) :
    (insertRanked rel x l).Perm (x :: l) := by
  induction l with
  | nil => exact List.Perm.refl _
  | cons y ys ih =>
    unfold insertRanked
    split
    · exact List.Perm.refl _
    · exact (List.Perm.cons y ih).trans (List.Perm.swap x y ys)

theorem rankBids_perm (rel : String → ℚ) (l : List Bid) :
    (rankBids rel l).Perm l := by
  induction l with
  | nil => exact List.Perm.refl _
  | cons x xs ih =>
    exact (insertRanked_perm rel x (rankBids rel xs)).trans (List.Perm.cons x ih)

theorem filter_insertRanked (rel : String → ℚ) (x : Bid) (l : List Bid)
    (k : ℚ × ℚ × ℚ) :
    (insertRanked rel x l).filter (fun b => bidKey rel b = k)
      = if bidKey rel x = k
        then x :: l.filter (fun b => bidKey rel b = k)
        else l.filter (fun b => bidKey rel b = k) := by
  induction l with
  | nil =>
    by_cases hx : bidKey rel x = k <;> simp [insertRanked, hx]
  | cons y ys ih =>
    unfold insertRanked
    by_cases hle : keyLE (bidKey rel x) (bidKey rel y)
    · rw [if_pos hle]
      by_cases hx : bidKey rel x = k <;> by_cases hy : bidKey rel y = k <;>
        simp [List.filter_cons, hx, hy]
    · rw [if_neg hle]
      by_cases hx : bidKey rel x = k
      · have hy : ¬ bidKey rel y = k := by
          intro hy
          exact hle (by rw [hx, hy]; exact keyLE_refl k)
        simp [List.filter_cons, hx, hy, ih]
      · simp [List.filter_cons, hx, ih]

theorem filter_rankBids (rel : String → ℚ) (l : List Bid) (k : ℚ × ℚ × ℚ) :
    (rankBids rel l).filter (fun b => bidKey rel b = k)
      = l.filter (fun b => bidKey rel b = k) := by
  induction l with
  | nil => rfl
  | cons x xs ih =>
    show (insertRanked rel x (rankBids rel xs)).filter _ = _
    rw [filter_insertRanked]
    by_cases hx : bidKey rel x = k <;> simp [List.filter_cons, hx, ih]

/-- `keyLE` spelled out: the lexicographic order on (price, days, negated
reliability). -/
theorem keyLE_iff (k₁ k₂ : ℚ × ℚ × ℚ) :
    keyLE k₁ k₂ = true ↔
      k₁.1 < k₂.1 ∨ (k₁.1 = k₂.1 ∧
        (k₁.2.1 < k₂.2.1 ∨ (k₁.2.1 = k₂.2.1 ∧ k₁.2.2 ≤ k₂.2.2))) := by
  simp only [keyLE]
  split_ifs with h1 h2 h3 h4
  · simp [h1]
  · simp [h1, h2.ne']
  · have heq : k₁.1 = k₂.1 :=
      le_antisymm (not_lt.mp h2) (not_lt.mp h1)
    simp [h1, heq, h3]
  · have heq : k₁.1 = k₂.1 :=
      le_antisymm (not_lt.mp h2) (not_lt.mp h1)
    simp [h1, heq, h3, h4.ne']
  · have heq : k₁.1 = k₂.1 :=
      le_antisymm (not_lt.mp h2) (not_lt.mp h1)
    have heq2 : k₁.2.1 = k₂.2.1 :=
      le_antisymm (not_lt.mp h4) (not_lt.mp h3)
    simp [h1, heq, h3, heq2]

/-- The comparator is total. -/
theorem keyLE_total (k₁ k₂ : ℚ × ℚ × ℚ) :
    keyLE k₁ k₂ = true ∨ keyLE k₂ k₁ = true := by
  rw [keyLE_iff, keyLE_iff]
  rcases lt_trichotomy k₁.1 k₂.1 with h | h | h
  · exact Or.inl (Or.inl h)
  · rcases lt_trichotomy k₁.2.1 k₂.2.1 with h' | h' | h'
    · exact Or.inl (Or.inr ⟨h, Or.inl h'⟩)
    · rcases le_total k₁.2.2 k₂.2.2 with h'' | h''
      · exact Or.inl (Or.inr ⟨h, Or.inr ⟨h', h''⟩⟩)
      · exact Or.inr (Or.inr ⟨h.symm, Or.inr ⟨h'.symm, h''⟩⟩)
    · exact Or.inr (Or.inr ⟨h.symm, Or.inl h'⟩)
  · exact Or.inr (Or.inl h)

/-- The comparator is transitive. -/
theorem keyLE_trans {k₁ k₂ k₃ : ℚ × ℚ × ℚ}
    (h₁₂ : keyLE k₁ k₂ = true) (h₂₃ : keyLE k₂ k₃ = true) :
    keyLE k₁ k₃ = true := by
  rw [keyLE_iff] at h₁₂ h₂₃ ⊢
  rcases h₁₂ with h | ⟨e1, hs⟩
  · rcases h₂₃ with h' | ⟨e1', _⟩
    · exact Or.inl (h.trans h')
    · exact Or.inl (by rw [← e1']; exact h)
  · rcases h₂₃ with h' | ⟨e1', hs'⟩
    · exact Or.inl (by rw [e1]; exact h')
    · refine Or.inr ⟨e1.trans e1', ?_⟩
      rcases hs with h2 | ⟨e2, h2⟩
      · rcases hs' with h2' | ⟨e2', _⟩
        · exact Or.inl (h2.trans h2')
        · exact Or.inl (by rw [← e2']; exact h2)
      · rcases hs' with h2' | ⟨e2', h2'⟩
        · exact Or.inl (by rw [e2]; exact h2')
        · exact Or.inr ⟨e2.trans e2', h2.trans h2'⟩

/-- Inserting into a comparator-sorted list keeps it sorted. -/
theorem pairwise_insertRanked (rel : String → ℚ) (x : Bid) (l : List Bid)
    (hl : l.Pairwise fun a b => keyLE (bidKey rel a) (bidKey rel b) = true) :
    (insertRanked rel x l).Pairwise
      fun a b => keyLE (bidKey rel a) (bidKey rel b) = true := by
  induction l with
  | nil => simp [insertRanked]
  | cons y ys ih =>
    rw [List.pairwise_cons] at hl
    obtain ⟨hy, hys⟩ := hl
    unfold insertRanked
    by_cases hxy : keyLE (bidKey rel x) (bidKey rel y) = true
    · rw [if_pos hxy]
      refine List.Pairwise.cons ?_ (List.Pairwise.cons hy hys)
      intro z hz
      rcases List.mem_cons.mp hz with rfl | hz'
      · exact hxy
      · exact keyLE_trans hxy (hy z hz')
    · rw [if_neg hxy]
      refine List.Pairwise.cons ?_ (ih hys)
      intro z hz
      rcases List.mem_cons.mp ((insertRanked_perm rel x ys).mem_iff.mp hz)
          with hzx | hz''
      · rcases keyLE_total (bidKey rel x) (bidKey rel y) with h | h
        · exact absurd h hxy
        · rw [hzx]
          exact h
      · exact hy z hz''

/-- The ranked output is sorted by the three-level comparator. -/
theorem pairwise_rankBids (rel : String → ℚ) (l : List Bid) :
    (rankBids rel l).Pairwise
      fun a b => keyLE (bidKey rel a) (bidKey rel b) = true := by
  induction l with
  | nil => simp [rankBids]
  | cons x xs ih =>
    exact pairwise_insertRanked rel x (rankBids rel xs) ih

/-! ## Phase bookkeeping lemmas -/

theorem Phases.get_set (ps : Phases) (p q : Phase) (i : PhaseInfo) :
    (ps.set p i).get q = if p = q then i else ps.get q := by
  cases p <;> cases q <;> simp [Phases.set, Phases.get]

theorem phaseIdx_injective : Function.Injective phaseIdx := by
  intro p q h
  cases p <;> cases q <;> first | rfl | simp [phaseIdx] at h

theorem phaseIdx_le_two_iff (p : Phase) :
    phaseIdx p ≤ 2 ↔ (p = .confirmation ∨ p = .payment ∨ p = .production) := by
  cases p <;> simp [phaseIdx]

theorem setPhaseInfo_get (o : Order) (p q : Phase) (i : PhaseInfo) :
    ((setPhaseInfo o p i).phases.get q) = if p = q then i else o.phases.get q := by
  simp [setPhaseInfo, Phases.get_set]

/-- `finishOrderUpdate` never changes the current phase, nor the status,
start instant, or completion instant of any phase record. -/
theorem finishOrderUpdate_fields (now : ℚ) (u : String) (nt : Option String)
    (e : Option ℚ) (d : List String) (o : Order) (p : Phase) :
    (finishOrderUpdate now u nt e d o).currentPhase = o.currentPhase ∧
    ((finishOrderUpdate now u nt e d o).phases.get p).status
      = (o.phases.get p).status ∧
    ((finishOrderUpdate now u nt e d o).phases.get p).startedAt
      = (o.phases.get p).startedAt ∧
    ((finishOrderUpdate now u nt e d o).phases.get p).completedAt
      = (o.phases.get p).completedAt := by
  unfold finishOrderUpdate
  cases nt <;> cases e <;> by_cases hd : d.isEmpty = true <;>
    simp [hd, setPhaseInfo_get, setPhaseInfo,
      apply_ite (fun x : Order => x.currentPhase),
      apply_ite (fun x : Order => ((x.phases.get p)).status),
      apply_ite (fun x : Order => ((x.phases.get p)).startedAt),
      apply_ite (fun x : Order => ((x.phases.get p)).completedAt),
      apply_ite PhaseInfo.status, apply_ite PhaseInfo.startedAt,
      apply_ite PhaseInfo.completedAt, Phases.get_set] <;>
  refine ⟨?_, ?_, ?_⟩ <;>
  first
    | (intro h; rw [h])
    | (split_ifs with h <;> simp [h])

/-- The overall status after `finishOrderUpdate`: flipped to `"completed"`
exactly when the delivery phase is current and completed, otherwise
unchanged. -/
theorem finishOrderUpdate_status (now : ℚ) (u : String) (nt : Option String)
    (e : Option ℚ) (d : List String) (o : Order) :
    (finishOrderUpdate now u nt e d o).status
      = if o.currentPhase = Phase.delivery ∧
           (o.phases.get Phase.delivery).status = "completed"
        then "completed" else o.status := by
  unfold finishOrderUpdate
  cases nt <;> cases e <;> by_cases hd : d.isEmpty = true <;>
    simp [hd, setPhaseInfo_get, setPhaseInfo,
      apply_ite (fun x : Order => x.status),
      apply_ite PhaseInfo.status, Phases.get_set] <;>
  by_cases hC : o.currentPhase = Phase.delivery <;> simp [hC]

/-- Phases other than the current one are completely untouched by
`finishOrderUpdate`. -/
theorem finishOrderUpdate_get_ne (now : ℚ) (u : String) (nt : Option String)
    (e : Option ℚ) (d : List String) (o : Order) {q : Phase}
    (hq : q ≠ o.currentPhase) :
    (finishOrderUpdate now u nt e d o).phases.get q = o.phases.get q := by
  unfold finishOrderUpdate
  cases nt <;> cases e <;> by_cases hd : d.isEmpty = true <;>
    simp [hd, setPhaseInfo, Phases.get_set, Ne.symm hq,
      apply_ite (fun x : Order => x.phases.get q)]

/-! ## Preservation of the phase-layout invariant -/

theorem updateOrderPhase_inv {now : ℚ} {u : String} {ph : Option Phase}
    {nt : Option String} {e : Option ℚ} {d : List String} {o o' : Order}
    (h : OrderInv o)
    (hok : updateOrderPhase now u ph nt e d o = .ok o') : OrderInv o' := by
  simp only [updateOrderPhase] at hok
  split at hok
  · cases hok
  rename_i hparty
  split at hok
  · cases hok
  rename_i hstat0
  have hact : o.status = "active" := not_not.mp hstat0
  obtain ⟨hbefore, hafter, hcur⟩ := h hact
  split at hok
  · -- no explicit target phase
    injection hok with hok'
    subst hok'
    intro _
    refine ⟨fun q hq => ?_, fun q hq => ?_, ?_⟩
    · rw [(finishOrderUpdate_fields now u nt e d o q).2.1]
      exact hbefore q (by rwa [(finishOrderUpdate_fields now u nt e d o q).1] at hq)
    · rw [(finishOrderUpdate_fields now u nt e d o q).2.1]
      exact hafter q (by rwa [(finishOrderUpdate_fields now u nt e d o q).1] at hq)
    · rw [(finishOrderUpdate_fields now u nt e d o o.currentPhase).1,
          (finishOrderUpdate_fields now u nt e d o o.currentPhase).2.1]
      exact hcur
  · -- explicit target phase p
    rename_i p
    split at hok
    · cases hok
    rename_i hlt
    split at hok
    · cases hok
    rename_i hskip
    injection hok with hok'
    subst hok'
    by_cases hfwd : phaseIdx o.currentPhase < phaseIdx p
    · rw [if_pos hfwd]
      set o₁ : Order := if (o.phases.get o.currentPhase).status = "pending"
        then setPhaseInfo o o.currentPhase
          { o.phases.get o.currentPhase with
            status := "completed", completedAt := some now,
            updatedBy := some u }
        else o with ho₁
      set X : Order := { setPhaseInfo o₁ p
          { o₁.phases.get p with
            status := "pending", startedAt := some now,
            updatedBy := some u } with
        currentPhase := p } with hX
      have hXcur : X.currentPhase = p := rfl
      have hXget : ∀ q, (X.phases.get q).status =
          if p = q then "pending" else (o₁.phases.get q).status := by
        intro q
        show ((Phases.set _ p _).get q).status = _
        rw [Phases.get_set]
        split <;> rfl
      have ho₁get : ∀ q, (o₁.phases.get q).status =
          if o.currentPhase = q ∧ (o.phases.get o.currentPhase).status = "pending"
          then "completed" else (o.phases.get q).status := by
        intro q
        rw [ho₁]
        by_cases hpend : (o.phases.get o.currentPhase).status = "pending"
        · rw [if_pos hpend, setPhaseInfo_get]
          by_cases hq : o.currentPhase = q
          · subst hq; simp [hpend]
          · simp [hq, hpend]
        · rw [if_neg hpend]
          simp [hpend]
      intro _
      have hcur₁ : (o₁.phases.get o.currentPhase).status = "completed" := by
        rw [ho₁get]
        by_cases hpend : (o.phases.get o.currentPhase).status = "pending"
        · simp [hpend]
        · simp [hpend]
          rcases hcur with hc | hc
          · exact absurd hc hpend
          · exact hc
      refine ⟨fun q hq => ?_, fun q hq => ?_, ?_⟩
      · rw [(finishOrderUpdate_fields now u nt e d X q).2.1, hXget]
        rw [(finishOrderUpdate_fields now u nt e d X q).1, hXcur] at hq
        have hqp : p ≠ q := fun hc => absurd (hc ▸ hq) (lt_irrefl _)
        rw [if_neg hqp]
        by_cases hqc : q = o.currentPhase
        · rw [hqc]; exact hcur₁
        · have hlt' : phaseIdx q < phaseIdx o.currentPhase := by
            have hne : phaseIdx q ≠ phaseIdx o.currentPhase :=
              fun hc => hqc (phaseIdx_injective hc)
            omega
          rw [ho₁get, if_neg]
          · exact hbefore q hlt'
          · exact fun hc => hqc hc.1.symm
      · rw [(finishOrderUpdate_fields now u nt e d X q).2.1, hXget]
        rw [(finishOrderUpdate_fields now u nt e d X q).1, hXcur] at hq
        have hqp : p ≠ q := fun hc => absurd (hc ▸ hq) (lt_irrefl _)
        rw [if_neg hqp]
        have hqcur : phaseIdx o.currentPhase < phaseIdx q := by omega
        have hqc : o.currentPhase ≠ q := fun hc =>
          absurd (hc ▸ hqcur) (lt_irrefl _)
        rw [ho₁get, if_neg]
        · exact hafter q hqcur
        · exact fun hc => hqc hc.1
      · left
        rw [(finishOrderUpdate_fields now u nt e d X X.currentPhase).1, hXcur,
            (finishOrderUpdate_fields now u nt e d X p).2.1, hXget]
        simp
    · rw [if_neg hfwd]
      have hpq : p = o.currentPhase := phaseIdx_injective (by omega)
      set X : Order := if (o.phases.get o.currentPhase).status = "pending"
        then setPhaseInfo o o.currentPhase
          { o.phases.get o.currentPhase with
            status := "completed", completedAt := some now,
            updatedBy := some u }
        else o with hX
      have hXcur : X.currentPhase = o.currentPhase := by
        rw [hX]; split <;> rfl
      have hXget : ∀ q, (X.phases.get q).status =
          if o.currentPhase = q ∧ (o.phases.get o.currentPhase).status = "pending"
          then "completed" else (o.phases.get q).status := by
        intro q
        rw [hX]
        by_cases hpend : (o.phases.get o.currentPhase).status = "pending"
        · rw [if_pos hpend, setPhaseInfo_get]
          by_cases hq : o.currentPhase = q
          · subst hq; simp [hpend]
          · simp [hq, hpend]
        · rw [if_neg hpend]
          simp [hpend]
      intro _
      refine ⟨fun q hq => ?_, fun q hq => ?_, ?_⟩
      · rw [(finishOrderUpdate_fields now u nt e d X q).2.1, hXget]
        rw [(finishOrderUpdate_fields now u nt e d X q).1, hXcur] at hq
        have hqc : o.currentPhase ≠ q := fun hc =>
          absurd (hc ▸ hq) (lt_irrefl _)
        rw [if_neg (fun hc => hqc hc.1)]
        exact hbefore q hq
      · rw [(finishOrderUpdate_fields now u nt e d X q).2.1, hXget]
        rw [(finishOrderUpdate_fields now u nt e d X q).1, hXcur] at hq
        have hqc : o.currentPhase ≠ q := fun hc =>
          absurd (hc ▸ hq) (lt_irrefl _)
        rw [if_neg (fun hc => hqc hc.1)]
        exact hafter q hq
      · rw [(finishOrderUpdate_fields now u nt e d X X.currentPhase).1, hXcur,
            (finishOrderUpdate_fields now u nt e d X o.currentPhase).2.1, hXget]
        by_cases hpend : (o.phases.get o.currentPhase).status = "pending"
        · right; simp [hpend]
        · simp [hpend]
          rcases hcur with hc | hc
          · exact absurd hc hpend
          · exact hc

theorem uploadOrderDocuments_inv {now : ℚ} {u : String} {ph : Phase}
    {d : List String} {o o' : Order} (h : OrderInv o)
    (hok : uploadOrderDocuments now u ph d o = .ok o') : OrderInv o' := by
  simp only [uploadOrderDocuments] at hok
  split at hok
  · cases hok
  split at hok
  · cases hok
  rename_i hstat0
  split at hok
  · cases hok
  have hact : o.status = "active" := not_not.mp hstat0
  obtain ⟨hbefore, hafter, hcur⟩ := h hact
  injection hok with hok'
  subst hok'
  intro _
  have hget : ∀ q, ((Phases.set o.phases ph
      { o.phases.get ph with
        documents := (o.phases.get ph).documents ++ d,
        updatedBy := some u }).get q).status = (o.phases.get q).status := by
    intro q
    rw [Phases.get_set]
    split
    · rename_i hq; rw [← hq]
    · rfl
  exact ⟨fun q hq => by rw [show ((_ : Order).phases.get q).status = _ from hget q]; exact hbefore q hq,
         fun q hq => by rw [show ((_ : Order).phases.get q).status = _ from hget q]; exact hafter q hq,
         by rw [show ((_ : Order).phases.get o.currentPhase).status = _ from hget o.currentPhase]; exact hcur⟩

theorem cancelOrder_inv {now : ℚ} {u : String} {reason : Option String}
    {o o' : Order} (h : OrderInv o)
    (hok : cancelOrder now u reason o = .ok o') : OrderInv o' := by
  simp only [cancelOrder] at hok
  split at hok
  · cases hok
  split at hok
  · cases hok
  split at hok
  · cases hok
  injection hok with hok'
  subst hok'
  intro hact'
  exact absurd hact' (by decide : ("cancelled" : String) ≠ "active")

/-- Every single mutating order operation preserves the phase-layout
invariant. -/
theorem orderStep_inv {o o' : Order} (h : OrderInv o) (hs : OrderStep o o') :
    OrderInv o' := by
  cases hs with
  | advance now u ph nt e d hok => exact updateOrderPhase_inv h hok
  | attach now u ph d hok => exact uploadOrderDocuments_inv h hok
  | cancel now u reason hok => exact cancelOrder_inv h hok

/-- Freshly created orders satisfy the phase-layout invariant. -/
theorem createOrderFromBid_inv {now : ℚ} {newId bidId : String}
    {bids : List Bid} {reqs : List Requirement} {users : List User} {o : Order}
    (hok : createOrderFromBid now newId bidId bids reqs users = .ok o) :
    OrderInv o := by
  simp only [createOrderFromBid] at hok
  split at hok
  · cases hok
  split at hok
  · cases hok
  split at hok
  · cases hok
  injection hok with hok'
  subst hok'
  intro _
  refine ⟨fun q hq => ?_, fun q hq => ?_, Or.inl rfl⟩
  · exact absurd hq (by simp [phaseIdx])
  · cases q <;> first | rfl | (simp [phaseIdx] at hq)

/-- The acceptance invariant holds in every reachable state. -/
theorem marketReachable_inv {s₀ s : MarketState} (h₀ : MarketInv s₀)
    (hr : MarketReachable s₀ s) : MarketInv s := by
  induction hr with
  | refl => exact h₀
  | tail _ hstep ih => exact marketStep_inv ih hstep

/-! ## The awarded-requirement lock

After an acceptance, the requirement is `"awarded"`; no bidding operation
ever sets a requirement back to `"active"`, and no operation can introduce
a new active bid on a non-active requirement, so the accepted bid can never
again coexist with an active sibling. -/

/-- Membership in an in-place update: either an untouched original element
or the image of a matched one. -/
theorem mem_updateFirst_cases {p : α → Bool} {f : α → α} {l : List α} {y : α}
    (hy : y ∈ updateFirst p f l) :
    y ∈ l ∨ ∃ x ∈ l, p x = true ∧ y = f x := by
  induction l with
  | nil => simp [updateFirst] at hy
  | cons z zs ih =>
    cases hz : p z with
    | true =>
      simp only [updateFirst, hz, if_pos] at hy
      rcases List.mem_cons.mp hy with rfl | hmem
      · exact Or.inr ⟨z, List.mem_cons_self z zs, hz, rfl⟩
      · exact Or.inl (List.mem_cons_of_mem z hmem)
    | false =>
      simp only [updateFirst, hz, Bool.false_eq_true, if_neg, not_false_iff] at hy
      rcases List.mem_cons.mp hy with rfl | hmem
      · exact Or.inl (List.mem_cons_self _ _)
      · rcases ih hmem with h | ⟨x, hx, hpx, hyx⟩
        · exact Or.inl (List.mem_cons_of_mem z h)
        · exact Or.inr ⟨x, List.mem_cons_of_mem z hx, hpx, hyx⟩

/-- The (first) requirement record with id `rid` is not `"active"`. -/
def ReqNotActive (rid : String) (s : MarketState) : Prop :=
  ∀ r, s.requirements.find? (fun x => x.id == rid) = some r →
    r.status ≠ "active"

/-- No bid on requirement `rid` other than bid `i` is `"active"`. -/
def NoActiveSibling (rid i : String) (s : MarketState) : Prop :=
  ∀ b ∈ s.bids, b.requirementId = rid → b.id ≠ i → b.status ≠ "active"

theorem marketStep_awarded_lock {rid i : String} {s s' : MarketState}
    (h : ReqNotActive rid s ∧ NoActiveSibling rid i s)
    (hs : MarketStep s s') :
    ReqNotActive rid s' ∧ NoActiveSibling rid i s' := by
  obtain ⟨h1, h2⟩ := h
  cases hs with
  | submit now c j p hok =>
    simp only [submitBid] at hok
    split at hok
    · cases hok
    rename_i r hfind
    split at hok
    · cases hok
    rename_i hract
    split at hok
    · cases hok
    split at hok
    · cases hok
    split at hok
    · cases hok
    injection hok with hok'
    subst hok'
    have hract' : r.status = "active" := not_not.mp hract
    have hrne : p.requirementId ≠ rid := fun hc => h1 r (hc ▸ hfind) hract'
    constructor
    · intro r' hfind'
      obtain ⟨r₁, hr₁, hcase⟩ := find?_req_updateFirst
        (g := fun r => { r with bidCount := r.bidCount + 1, updatedAt := now })
        (fun _ => rfl) hfind'
      rcases hcase with rfl | rfl
      · exact h1 _ hr₁
      · exact h1 r₁ hr₁
    · intro b' hmem hb'rid hb'id
      rcases List.mem_append.mp hmem with hmem' | hmem'
      · exact h2 b' hmem' hb'rid hb'id
      · have hb' : b' =
            { id := j, requirementId := p.requirementId, exporterId := c,
              price := p.price, currency := p.currency,
              deliveryTime := p.deliveryTime,
              deliveryTimeUnit := p.deliveryTimeUnit, status := "active",
              acceptedAt := none, createdAt := now, updatedAt := now } := by
          simpa using hmem'
        subst hb'
        exact absurd hb'rid hrne
  | update now c j u hok =>
    simp only [updateBid] at hok
    split at hok
    · cases hok
    split at hok
    · cases hok
    split at hok
    · cases hok
    split at hok
    · cases hok
    split at hok
    · cases hok
    injection hok with hok'
    subst hok'
    refine ⟨h1, ?_⟩
    intro b' hmem hb'rid hb'id
    rcases mem_updateFirst_cases hmem with hmem' | ⟨x, hx, _, rfl⟩
    · exact h2 b' hmem' hb'rid hb'id
    · exact h2 x hx hb'rid hb'id
  | withdraw now c j hok =>
    simp only [withdrawBid] at hok
    split at hok
    · cases hok
    split at hok
    · cases hok
    injection hok with hok'
    subst hok'
    constructor
    · intro r' hfind'
      obtain ⟨r₁, hr₁, hcase⟩ := find?_req_updateFirst
        (g := fun r => { r with bidCount := r.bidCount - 1, updatedAt := now })
        (fun _ => rfl) hfind'
      rcases hcase with rfl | rfl
      · exact h1 _ hr₁
      · exact h1 r₁ hr₁
    · intro b' hmem hb'rid hb'id
      rcases mem_updateFirst_cases hmem with hmem' | ⟨x, hx, _, rfl⟩
      · exact h2 b' hmem' hb'rid hb'id
      · exact (by decide : ("withdrawn" : String) ≠ "active")
  | accept now c j hok =>
    simp only [acceptBid] at hok
    split at hok
    · cases hok
    rename_i bid hb
    split at hok
    · cases hok
    rename_i r hr
    split at hok
    · cases hok
    split at hok
    · cases hok
    split at hok
    · cases hok
    injection hok with hok'
    subst hok'
    constructor
    · intro r' hfind'
      obtain ⟨r₁, hr₁, hcase⟩ := find?_req_updateFirst
        (g := fun x => { x with
                         status := "awarded", awardedBidId := some j,
                         updatedAt := now })
        (fun _ => rfl) hfind'
      rcases hcase with rfl | rfl
      · exact h1 _ hr₁
      · exact (by decide : ("awarded" : String) ≠ "active")
    · intro b' hmem hb'rid hb'id
      obtain ⟨b₁, hb₁mem, hb₁⟩ := List.mem_map.mp hmem
      have hb₁' : (if (b₁.requirementId == bid.requirementId && b₁.id != j
          && b₁.status == "active") = true
          then { b₁ with status := "rejected", updatedAt := now } else b₁)
          = b' := hb₁
      by_cases hcond : (b₁.requirementId == bid.requirementId && b₁.id != j
          && b₁.status == "active") = true
      · rw [if_pos hcond] at hb₁'
        rw [← hb₁']
        exact (by decide : ("rejected" : String) ≠ "active")
      · rw [if_neg hcond] at hb₁'
        rw [← hb₁'] at hb'rid hb'id ⊢
        rcases mem_updateFirst_cases hb₁mem with hmem' | ⟨x, hx, _, rfl⟩
        · exact h2 b₁ hmem' hb'rid hb'id
        · exact (by decide : ("accepted" : String) ≠ "active")

/-- The awarded-requirement lock holds in every reachable state. -/
theorem marketReachable_awarded_lock {rid i : String} {s s' : MarketState}
    (h : ReqNotActive rid s ∧ NoActiveSibling rid i s)
    (hr : MarketReachable s s') :
    ReqNotActive rid s' ∧ NoActiveSibling rid i s' := by
  induction hr with
  | refl => exact h
  | tail _ hstep ih => exact marketStep_awarded_lock ih hstep

/-! ## Demonstration states used to instantiate the theorems -/

/-- An active requirement by importer `i1` with a 4.00 USD target price. -/
def demoReq : Requirement :=
  { id := "r1", importerId := "i1", quantity := 5000, unit := "kg",
    targetPrice := some 4, currency := "USD", bidDeadline := 100,
    deliveryLocation := "New York", status := "active", bidCount := 0,
    awardedBidId := none, updatedAt := 0 }

/-- The same requirement after an award. -/
def demoReqAwarded : Requirement :=
  { demoReq with status := "awarded", awardedBidId := some "b9" }

/-- A withdrawn bid by exporter `e1` on `r1`. -/
def bidB1w : Bid :=
  { id := "b1", requirementId := "r1", exporterId := "e1",
    price := 3, currency := "USD", deliveryTime := 2, deliveryTimeUnit := "weeks",
    status := "withdrawn", acceptedAt := none, createdAt := 1, updatedAt := 2 }

/-- An active bid by exporter `e9` on `r1`. -/
def bidB9 : Bid :=
  { id := "b9", requirementId := "r1", exporterId := "e9",
    price := 3.5, currency := "USD", deliveryTime := 2, deliveryTimeUnit := "weeks",
    status := "active", acceptedAt := none, createdAt := 3, updatedAt := 3 }

/-- An active bid by exporter `e8` on `r1`. -/
def bidB8 : Bid :=
  { id := "b8", requirementId := "r1", exporterId := "e8",
    price := 3.6, currency := "USD", deliveryTime := 2, deliveryTimeUnit := "weeks",
    status := "active", acceptedAt := none, createdAt := 4, updatedAt := 4 }

/-- A store with one withdrawn and two active bids on the active `r1`. -/
def demoS4 : MarketState :=
  { bids := [bidB1w, bidB9, bidB8], requirements := [demoReq] }

/-- A store whose only requirement is already awarded. -/
def demoAwardedState : MarketState :=
  { bids := [bidB8], requirements := [demoReqAwarded] }

theorem demoAwardedState_inv : MarketInv demoAwardedState := by
  intro rid
  constructor
  · have hb8 : isAcceptedOn rid bidB8 = false :=
      isAcceptedOn_false_of_status (by decide)
    simp [demoAwardedState, acceptedCount, List.filter, hb8]
  · intro r' hfind hact
    simp only [demoAwardedState, List.find?] at hfind
    split at hfind
    · injection hfind with h'
      rw [← h'] at hact
      exact absurd hact (by decide : demoReqAwarded.status ≠ "active")
    · cases hfind

/-! ## Claim theorems -/

/-- C1: when the accept preconditions hold (bid found and active,
requirement found, owned by the caller and active), `acceptBid` succeeds
and, in the single resulting state, the target bid is accepted with an
`acceptedAt` instant, every previously-active sibling bid on the same
requirement reappears as rejected, no sibling bid on that requirement is
left active, and the requirement is awarded with `awardedBidId` pointing at
the accepted bid.  The embedding applies the whole cascade as one pure
state transformation, so these effects are atomic by construction; in
addition, in every state reachable from the post-state by further bidding
operations no sibling bid on that requirement is active, so no reachable
state shows the bid accepted next to an active sibling. -/
theorem acceptBid_cascade_effects {now : ℚ} {caller id : String}
    {s : MarketState} {bid : Bid} {r : Requirement}
    (hb : s.bids.find? (fun b => b.id == id) = some bid)
    (hr : s.requirements.find? (fun rq => rq.id == bid.requirementId) = some r)
    (hown : r.importerId = caller) (hra : r.status = "active")
    (hba : bid.status = "active") :
    ∃ s', acceptBid now caller id s = .ok s' ∧
      s'.bids.find? (fun b => b.id == id)
        = some { bid with
                 status := "accepted", acceptedAt := some now,
                 updatedAt := now } ∧
      (∀ b ∈ s.bids, b.requirementId = bid.requirementId → b.id ≠ id →
        b.status = "active" →
        { b with status := "rejected", updatedAt := now } ∈ s'.bids) ∧
      (∀ b' ∈ s'.bids, b'.requirementId = bid.requirementId → b'.id ≠ id →
        b'.status ≠ "active") ∧
      s'.requirements.find? (fun rq => rq.id == bid.requirementId)
        = some { r with
                 status := "awarded", awardedBidId := some id,
                 updatedAt := now } ∧
      (∀ s'', MarketReachable s' s'' →
        ∀ b' ∈ s''.bids, b'.requirementId = bid.requirementId → b'.id ≠ id →
          b'.status ≠ "active") := by
  have hbid_id : (bid.id == id) = true :=
    List.find?_some (p := fun b : Bid => b.id == id) hb
  have hreq_id : (r.id == bid.requirementId) = true :=
    List.find?_some (p := fun rq : Requirement => rq.id == bid.requirementId) hr
  refine ⟨{ bids := (updateFirst (fun b => b.id == id)
                        (fun b => { b with
                                    status := "accepted", acceptedAt := some now,
                                    updatedAt := now }) s.bids).map fun b =>
                      if b.requirementId == bid.requirementId && b.id != id
                          && b.status == "active"
                      then { b with status := "rejected", updatedAt := now } else b,
            requirements := updateFirst (fun rq => rq.id == bid.requirementId)
                              (fun rq => { rq with
                                           status := "awarded",
                                           awardedBidId := some id,
                                           updatedAt := now }) s.requirements },
    ?_, ?_, ?_, ?_, ?_, ?_⟩
  · simp only [acceptBid, hb, hr]
    rw [if_neg (not_not_intro hown), if_neg (not_not_intro hra),
        if_neg (not_not_intro hba)]
  · show ((updateFirst (fun b => b.id == id)
      (fun b => { b with
                  status := "accepted", acceptedAt := some now,
                  updatedAt := now }) s.bids).map fun b =>
        if b.requirementId == bid.requirementId && b.id != id && b.status == "active"
        then { b with status := "rejected", updatedAt := now } else b).find?
      (fun b => b.id == id) = _
    have hgid : ∀ b : Bid, ((fun b => b.id == id)
        ((fun b => if b.requirementId == bid.requirementId && b.id != id && b.status == "active"
          then { b with status := "rejected", updatedAt := now } else b) b))
        = ((fun b => b.id == id) b) := by
      intro b
      show ((if _ then _ else b).id == id) = _
      split <;> rfl
    rw [find?_map_of_pred_eq hgid,
        find?_updateFirst_self hb (by exact hbid_id)]
    simp
  · intro b hmem hbreq hbid hbact
    have hbp : ((fun b : Bid => b.id == id) b) = false := by
      simp [hbid]
    have hmem₁ : b ∈ updateFirst (fun b => b.id == id)
        (fun b => { b with
                    status := "accepted", acceptedAt := some now,
                    updatedAt := now }) s.bids :=
      mem_updateFirst_of_neg hmem hbp
    have hcond : (b.requirementId == bid.requirementId && b.id != id
        && b.status == "active") = true := by
      simp [hbreq, hbid, hbact]
    have hmm := List.mem_map_of_mem (f := fun b : Bid =>
      if b.requirementId == bid.requirementId && b.id != id && b.status == "active"
      then { b with status := "rejected", updatedAt := now } else b) hmem₁
    simpa [hcond] using hmm
  · intro b' hmem' hbreq' hbid' hbact'
    obtain ⟨a, hamem, ha⟩ := List.mem_map.mp hmem'
    by_cases hcond : (a.requirementId == bid.requirementId && a.id != id
        && a.status == "active") = true
    · rw [if_pos hcond] at ha
      rw [← ha] at hbact'
      exact absurd hbact' (by decide : ("rejected" : String) ≠ "active")
    · rw [if_neg hcond] at ha
      subst ha
      exact hcond (by simp [hbreq', hbid', hbact'])
  · show (updateFirst (fun rq => rq.id == bid.requirementId)
      (fun rq => { rq with
                   status := "awarded", awardedBidId := some id,
                   updatedAt := now }) s.requirements).find?
      (fun rq => rq.id == bid.requirementId) = _
    rw [find?_updateFirst_self hr (by exact hreq_id)]
  · intro s'' hreach b' hmem hbreq' hbid'
    refine (marketReachable_awarded_lock ⟨?_, ?_⟩ hreach).2 b' hmem hbreq' hbid'
    · intro r' hfind'
      have hgid : (({ r with
          status := "awarded", awardedBidId := some id,
          updatedAt := now } : Requirement).id == bid.requirementId) = true :=
        hreq_id
      rw [find?_updateFirst_self hr hgid] at hfind'
      injection hfind' with h'
      rw [← h']
      exact (by decide : ("awarded" : String) ≠ "active")
    · intro b₂ hmem₂ hbreq₂ hbid₂ hbact₂
      obtain ⟨a, hamem, ha⟩ := List.mem_map.mp hmem₂
      by_cases hcond : (a.requirementId == bid.requirementId && a.id != id
          && a.status == "active") = true
      · rw [if_pos hcond] at ha
        rw [← ha] at hbact₂
        exact absurd hbact₂ (by decide : ("rejected" : String) ≠ "active")
      · rw [if_neg hcond] at ha
        subst ha
        exact hcond (by simp [hbreq₂, hbid₂, hbact₂])

/-- Witness for C1: accepting bid `b9` on the demonstration store. -/
theorem acceptBid_cascade_effects_witness :
    ∃ s', acceptBid 5 "i1" "b9" demoS4 = .ok s' ∧
      s'.bids.find? (fun b => b.id == "b9")
        = some { bidB9 with
                 status := "accepted", acceptedAt := some 5, updatedAt := 5 } ∧
      (∀ b ∈ demoS4.bids, b.requirementId = bidB9.requirementId → b.id ≠ "b9" →
        b.status = "active" →
        { b with status := "rejected", updatedAt := 5 } ∈ s'.bids) ∧
      (∀ b' ∈ s'.bids, b'.requirementId = bidB9.requirementId → b'.id ≠ "b9" →
        b'.status ≠ "active") ∧
      s'.requirements.find? (fun rq => rq.id == bidB9.requirementId)
        = some { demoReq with
                 status := "awarded", awardedBidId := some "b9",
                 updatedAt := 5 } ∧
      (∀ s'', MarketReachable s' s'' →
        ∀ b' ∈ s''.bids, b'.requirementId = bidB9.requirementId →
          b'.id ≠ "b9" → b'.status ≠ "active") :=
  acceptBid_cascade_effects (by rfl) (by rfl) (by rfl) (by rfl) (by rfl)

/-- C2: starting from any store satisfying the acceptance invariant, every
state reachable through submit/update/withdraw/accept still satisfies it —
each requirement id carries at most one accepted bid, and while a
requirement is still active it carries none — and a further accept by the
requirement's owner on a bid of an already-awarded requirement fails with
the state-conflict error `"Requirement is not active"` and leaves the store
unchanged. -/
theorem accepted_unique_reachable {s₀ s : MarketState} (h₀ : MarketInv s₀)
    (hr : MarketReachable s₀ s) :
    MarketInv s ∧
    ∀ now caller id bid r,
      s.bids.find? (fun b => b.id == id) = some bid →
      s.requirements.find? (fun rq => rq.id == bid.requirementId) = some r →
      r.importerId = caller → r.status = "awarded" →
      acceptBid now caller id s
        = .error (.stateConflict "Requirement is not active") ∧
      runAcceptBid now caller id s = s := by
  refine ⟨marketReachable_inv h₀ hr, ?_⟩
  intro now caller id bid r hb hreq hown haw
  have herr : acceptBid now caller id s
      = .error (.stateConflict "Requirement is not active") := by
    simp only [acceptBid, hb, hreq]
    rw [if_neg (not_not_intro hown), if_pos]
    rw [haw]
    decide
  exact ⟨herr, by simp [runAcceptBid, herr]⟩

/-- The demonstration requirement without a declared target price. -/
def demoReqNT : Requirement := { demoReq with targetPrice := none }

/-- Empty store holding only the target-price-free requirement. -/
def roundTripState0 : MarketState := { bids := [], requirements := [demoReqNT] }

/-- Payload used for both submissions of the round trip. -/
def pay3 : BidPayload :=
  { requirementId := "r1", price := 3, currency := "USD",
    deliveryTime := 2, deliveryTimeUnit := "weeks" }

/-- Store after the first submission. -/
def roundTripState1 : MarketState :=
  { bids := [{ id := "bA", requirementId := "r1", exporterId := "e1",
               price := 3, currency := "USD", deliveryTime := 2,
               deliveryTimeUnit := "weeks", status := "active",
               acceptedAt := none, createdAt := 1, updatedAt := 1 }],
    requirements := [{ demoReqNT with bidCount := 1, updatedAt := 1 }] }

/-- Store after the withdrawal. -/
def roundTripState2 : MarketState :=
  { bids := [{ id := "bA", requirementId := "r1", exporterId := "e1",
               price := 3, currency := "USD", deliveryTime := 2,
               deliveryTimeUnit := "weeks", status := "withdrawn",
               acceptedAt := none, createdAt := 1, updatedAt := 2 }],
    requirements := [{ demoReqNT with bidCount := 0, updatedAt := 2 }] }

/-- Counterexample to C3: a submit → withdraw → resubmit round trip by the
same exporter on the same requirement is rejected by the duplicate-exporter
rule, because `validateBidIntegrity` filters the exporter's existing bids
without any status restriction — the withdrawn bid still blocks
resubmission, contradicting the claim that it passes. -/
theorem resubmit_after_withdraw_rejected :
    submitBid 1 "e1" "bA" pay3 roundTripState0 = .ok roundTripState1 ∧
    withdrawBid 2 "e1" "bA" roundTripState1 = .ok roundTripState2 ∧
    submitBid 3 "e1" "bB" pay3 roundTripState2
      = .error (.integrityViolation dupReason) :=
  ⟨rfl, rfl, rfl⟩

/-- C3 (amended): the duplicate-exporter rule rejects a candidate exactly
when the same exporter already has *any* bid on the same requirement,
regardless of that bid's status; in particular a second submission without
withdrawal is rejected, and so is a resubmission after withdrawal. -/
theorem duplicate_rule_any_status (nb : Bid) (l : List Bid)
    (reqs : List Requirement) :
    validateBidIntegrity nb l reqs = some dupReason ↔
      ∃ b ∈ l, b.exporterId = nb.exporterId ∧
        b.requirementId = nb.requirementId := by
  simp only [validateBidIntegrity]
  by_cases hlen : 0 < (List.filter
      (fun b => b.exporterId == nb.exporterId && b.requirementId == nb.requirementId)
      l).length
  · rw [if_pos hlen]
    constructor
    · intro _
      obtain ⟨b, hbmem⟩ := List.exists_mem_of_length_pos hlen
      have hmf := List.mem_filter.mp hbmem
      have hpred := hmf.2
      simp only [Bool.and_eq_true, beq_iff_eq] at hpred
      exact ⟨b, hmf.1, hpred.1, hpred.2⟩
    · intro _
      rfl
  · rw [if_neg hlen]
    constructor
    · intro hres
      exfalso
      split at hres
      · split at hres
        · split at hres
          · injection hres with h'
            exact absurd h' (by decide : lowReason ≠ dupReason)
          · cases hres
        · cases hres
      · cases hres
    · rintro ⟨b, hbmem, he, hrq⟩
      exfalso
      apply hlen
      exact List.length_pos_of_mem
        (List.mem_filter.mpr ⟨hbmem, by simp [he, hrq]⟩)

/-- C4: against a requirement that declares a target price, a candidate
that passes the duplicate-exporter rule is rejected as suspiciously low
exactly when its price in USD is strictly below 10% of the target in USD,
and accepted otherwise. -/
theorem suspicious_price_rule (nb : Bid) (l : List Bid)
    (reqs : List Requirement) (r : Requirement) (tp : ℚ)
    (hdup : ∀ b ∈ l, ¬(b.exporterId = nb.exporterId ∧
      b.requirementId = nb.requirementId))
    (hfind : reqs.find? (fun x => x.id == nb.requirementId) = some r)
    (htp : r.targetPrice = some tp) :
    (validateBidIntegrity nb l reqs = some lowReason ↔
      convertToUSD nb.price nb.currency < convertToUSD tp r.currency * 0.1) ∧
    (validateBidIntegrity nb l reqs = none ↔
      ¬ convertToUSD nb.price nb.currency < convertToUSD tp r.currency * 0.1) := by
  have hflt : List.filter
      (fun b => b.exporterId == nb.exporterId && b.requirementId == nb.requirementId)
      l = [] := by
    rw [List.filter_eq_nil]
    intro b hb
    have := hdup b hb
    simp only [Bool.and_eq_true, beq_iff_eq]
    intro hc
    exact this ⟨hc.1, hc.2⟩
  simp only [validateBidIntegrity, hflt, hfind, htp]
  by_cases hlt : convertToUSD nb.price nb.currency
      < convertToUSD tp r.currency * 0.1
  · simp [hlt]
  · simp [hlt]

/-- The 0.30 USD candidate bid against the 4.00 USD target. -/
def cand30 : Bid :=
  { id := "c30", requirementId := "r1", exporterId := "e2",
    price := 0.30, currency := "USD", deliveryTime := 5,
    deliveryTimeUnit := "days", status := "active", acceptedAt := none,
    createdAt := 1, updatedAt := 1 }

/-- The 0.40 USD candidate (exactly the 10% boundary). -/
def cand40 : Bid := { cand30 with id := "c40", price := 0.40 }

/-- The 0.50 USD candidate. -/
def cand50 : Bid := { cand30 with id := "c50", price := 0.50 }

/-- Witness for C4: with target 4.00 USD, the 0.30 USD candidate is
rejected as suspiciously low while the 0.40 USD (exact boundary) and
0.50 USD candidates are accepted. -/
theorem suspicious_price_rule_witness :
    validateBidIntegrity cand30 [] [demoReq] = some lowReason ∧
    validateBidIntegrity cand40 [] [demoReq] = none ∧
    validateBidIntegrity cand50 [] [demoReq] = none :=
  ⟨(suspicious_price_rule cand30 [] [demoReq] demoReq 4 (by simp) rfl rfl).1.mpr
      (by norm_num [convertToUSD, exchangeRate, cand30, demoReq]),
   (suspicious_price_rule cand40 [] [demoReq] demoReq 4 (by simp) rfl rfl).2.mpr
      (by norm_num [convertToUSD, exchangeRate, cand40, cand30, demoReq]),
   (suspicious_price_rule cand50 [] [demoReq] demoReq 4 (by simp) rfl rfl).2.mpr
      (by norm_num [convertToUSD, exchangeRate, cand50, cand30, demoReq])⟩

/-- The 5 USD bid of the ranking scenario. -/
def bidA5 : Bid :=
  { id := "A", requirementId := "r1", exporterId := "eA",
    price := 5, currency := "USD", deliveryTime := 10,
    deliveryTimeUnit := "days", status := "active", acceptedAt := none,
    createdAt := 1, updatedAt := 1 }

/-- The 4 EUR bid (4.4 USD normalized). -/
def bidB4 : Bid :=
  { bidA5 with
    id := "B", exporterId := "eB", price := 4, currency := "EUR",
    deliveryTime := 12 }

/-- The 450 INR bid (5.4 USD normalized). -/
def bidC450 : Bid :=
  { bidA5 with
    id := "C", exporterId := "eC", price := 450, currency := "INR",
    deliveryTime := 9 }

/-- A 5 USD bid quoting 3 weeks delivery. -/
def bidSlow : Bid :=
  { bidA5 with
    id := "S", exporterId := "eS", deliveryTime := 3,
    deliveryTimeUnit := "weeks" }

/-- A 5 USD bid quoting 5 days delivery. -/
def bidFast : Bid :=
  { bidA5 with
    id := "F", exporterId := "eF", deliveryTime := 5,
    deliveryTimeUnit := "days" }

/-- C5: the comparator ranks by ascending USD-normalized price first
(whatever the reliability draw), 4 EUR (4.4) before 5 USD (5.0) before
450 INR (5.4); it breaks price ties by ascending normalized delivery days;
and unknown currency codes and unrecognized time units fall back to
multiplier 1. -/
theorem rank_multi_key_order :
    (∀ rel : String → ℚ,
      rankBids rel [bidA5, bidB4, bidC450] = [bidB4, bidA5, bidC450]) ∧
    (∀ rel : String → ℚ,
      rankBids rel [bidSlow, bidFast] = [bidFast, bidSlow]) ∧
    (∀ q : ℚ, convertToUSD q "XXX" = q) ∧
    (∀ t : ℚ, convertToDays t "sometime" = t) := by
  refine ⟨fun rel => ?_, fun rel => ?_, fun q => ?_, fun t => ?_⟩
  · norm_num [rankBids, insertRanked, keyLE, bidKey, convertToUSD,
      convertToDays, bidA5, bidB4, bidC450,
      show exchangeRate "USD" = 1 from rfl,
      show exchangeRate "EUR" = 1.1 from rfl,
      show exchangeRate "INR" = 0.012 from rfl,
      show timeMultiplier "days" = 1 from rfl]
  · norm_num [rankBids, insertRanked, keyLE, bidKey, convertToUSD,
      convertToDays, bidA5, bidSlow, bidFast,
      show exchangeRate "USD" = 1 from rfl,
      show timeMultiplier "days" = 1 from rfl,
      show timeMultiplier "weeks" = 7 from rfl]
  · norm_num [convertToUSD, show exchangeRate "XXX" = 1 from rfl]
  · norm_num [convertToDays, show timeMultiplier "sometime" = 1 from rfl]

/-- One possible outcome of the reliability draws: exporter `eT1` scores 9,
everyone else 1. -/
def relDrawA : String → ℚ := fun e => if e = "eT1" then 9 else 1

/-- Another possible outcome: exporter `eT2` scores 9, everyone else 1. -/
def relDrawB : String → ℚ := fun e => if e = "eT2" then 9 else 1

/-- First of two bids tying on price and delivery. -/
def bidT1 : Bid := { bidA5 with id := "T1", exporterId := "eT1" }

/-- Second of two bids tying on price and delivery. -/
def bidT2 : Bid := { bidA5 with id := "T2", exporterId := "eT2" }

/-- Counterexample to C6: the reliability tie-break comes from
`getExporterReliability`, which draws `Math.random()`; under two possible
draws the same input list is ranked in two different orders, so two
invocations of rank on the same list need not produce the same output
order. -/
theorem rank_not_invocation_deterministic :
    rankBids relDrawA [bidT1, bidT2] ≠ rankBids relDrawB [bidT1, bidT2] := by
  have h1 : rankBids relDrawA [bidT1, bidT2] = [bidT1, bidT2] := by
    norm_num [rankBids, insertRanked, keyLE, bidKey, convertToUSD,
      convertToDays, bidT1, bidT2, bidA5,
      show exchangeRate "USD" = 1 from rfl,
      show timeMultiplier "days" = 1 from rfl,
      show relDrawA "eT1" = 9 from rfl,
      show relDrawA "eT2" = 1 from rfl]
  have h2 : rankBids relDrawB [bidT1, bidT2] = [bidT2, bidT1] := by
    norm_num [rankBids, insertRanked, keyLE, bidKey, convertToUSD,
      convertToDays, bidT1, bidT2, bidA5,
      show exchangeRate "USD" = 1 from rfl,
      show timeMultiplier "days" = 1 from rfl,
      show relDrawB "eT1" = 1 from rfl,
      show relDrawB "eT2" = 9 from rfl]
  rw [h1, h2]
  intro hc
  have hids := congrArg (List.map Bid.id) hc
  exact absurd hids (by decide)

/-- C6 (amended): for each fixed reliability assignment (one score per
exporter, i.e. one fixed outcome of the random draws), rank is a pure
function of its input that returns a permutation of the input bids — no
bid's fields are altered — sorted by the three-level comparator (each
output bid compares `keyLE` to every later one, i.e. ascending USD price,
then ascending delivery days, then descending reliability, by `keyLE_iff`),
and it is stable: bids whose three comparator keys all agree keep their
relative input order.  Across invocations the random reliability component
may reorder bids that tie on price and delivery days. -/
theorem rank_stable_perm_fixed_rel (rel : String → ℚ) (l : List Bid) :
    (rankBids rel l).Perm l ∧
    (rankBids rel l).Pairwise
      (fun a b => keyLE (bidKey rel a) (bidKey rel b) = true) ∧
    ∀ k, (rankBids rel l).filter (fun b => bidKey rel b = k)
        = l.filter (fun b => bidKey rel b = k) :=
  ⟨rankBids_perm rel l, pairwise_rankBids rel l,
   fun k => filter_rankBids rel l k⟩

/-- A successful phase update never decreases the current phase's index. -/
theorem updateOrderPhase_mono {now : ℚ} {u : String} {ph : Option Phase}
    {nt : Option String} {e : Option ℚ} {d : List String} {o o' : Order}
    (hok : updateOrderPhase now u ph nt e d o = .ok o') :
    phaseIdx o.currentPhase ≤ phaseIdx o'.currentPhase := by
  simp only [updateOrderPhase] at hok
  split at hok
  · cases hok
  split at hok
  · cases hok
  split at hok
  · injection hok with hok'
    subst hok'
    rw [(finishOrderUpdate_fields now u nt e d o o.currentPhase).1]
  · rename_i p
    split at hok
    · cases hok
    rename_i hlt
    split at hok
    · cases hok
    rename_i hskip
    injection hok with hok'
    subst hok'
    by_cases hfwd : phaseIdx o.currentPhase < phaseIdx p
    · rw [if_pos hfwd, (finishOrderUpdate_fields now u nt e d _ p).1]
      show phaseIdx o.currentPhase ≤ phaseIdx p
      omega
    · rw [if_neg hfwd]
      set X : Order := if (o.phases.get o.currentPhase).status = "pending"
        then setPhaseInfo o o.currentPhase
          { o.phases.get o.currentPhase with
            status := "completed", completedAt := some now,
            updatedBy := some u }
        else o with hX
      have hXcur : X.currentPhase = o.currentPhase := by
        rw [hX]; split <;> rfl
      rw [(finishOrderUpdate_fields now u nt e d X o.currentPhase).1, hXcur]

/-- C7: for an active order and a counterparty caller giving an explicit
target phase, the update fails (with a reported error, never a silent
clamp) exactly when the target's index is strictly below the current
phase's index or more than one above it; a move to the immediate next
phase succeeds, marks the current phase (when pending) completed with a
completion instant and the acting principal, and opens the target phase as
pending with a start instant; and across all successful updates the
current-phase index never decreases. -/
theorem advance_phase_window {now : ℚ} {u : String} {ph : Phase}
    {nt : Option String} {e : Option ℚ} {d : List String} {o : Order}
    (hparty : o.exporterId = u ∨ o.importerId = u)
    (hact : o.status = "active") :
    ((∃ msg, updateOrderPhase now u (some ph) nt e d o = .error msg) ↔
      (phaseIdx ph < phaseIdx o.currentPhase ∨
        phaseIdx o.currentPhase + 1 < phaseIdx ph)) ∧
    (phaseIdx ph < phaseIdx o.currentPhase →
      updateOrderPhase now u (some ph) nt e d o
        = .error "Cannot move to previous phase") ∧
    (phaseIdx o.currentPhase + 1 < phaseIdx ph →
      updateOrderPhase now u (some ph) nt e d o
        = .error "Cannot skip phases") ∧
    (phaseIdx ph = phaseIdx o.currentPhase + 1 →
      ∃ o', updateOrderPhase now u (some ph) nt e d o = .ok o' ∧
        o'.currentPhase = ph ∧
        (o'.phases.get ph).status = "pending" ∧
        (o'.phases.get ph).startedAt = some now ∧
        ((o.phases.get o.currentPhase).status = "pending" →
          (o'.phases.get o.currentPhase).status = "completed" ∧
          (o'.phases.get o.currentPhase).completedAt = some now ∧
          (o'.phases.get o.currentPhase).updatedBy = some u)) ∧
    (∀ ph' o', updateOrderPhase now u ph' nt e d o = .ok o' →
      phaseIdx o.currentPhase ≤ phaseIdx o'.currentPhase) := by
  have hpar : ¬(o.exporterId ≠ u ∧ o.importerId ≠ u) := by tauto
  have hst : ¬ o.status ≠ "active" := not_not_intro hact
  have h2 : phaseIdx ph < phaseIdx o.currentPhase →
      updateOrderPhase now u (some ph) nt e d o
        = .error "Cannot move to previous phase" := by
    intro hc
    simp only [updateOrderPhase, if_neg hpar, if_neg hst]
    rw [if_pos hc]
  have h3 : phaseIdx o.currentPhase + 1 < phaseIdx ph →
      updateOrderPhase now u (some ph) nt e d o
        = .error "Cannot skip phases" := by
    intro hc
    simp only [updateOrderPhase, if_neg hpar, if_neg hst]
    rw [if_neg (by omega : ¬ phaseIdx ph < phaseIdx o.currentPhase), if_pos hc]
  refine ⟨⟨?_, ?_⟩, h2, h3, ?_, fun ph' o' hok => updateOrderPhase_mono hok⟩
  · rintro ⟨msg, hmsg⟩
    by_contra hno
    push_neg at hno
    simp only [updateOrderPhase, if_neg hpar, if_neg hst] at hmsg
    rw [if_neg (not_lt.mpr hno.1), if_neg (not_lt.mpr hno.2)] at hmsg
    cases hmsg
  · rintro (hc | hc)
    · exact ⟨_, h2 hc⟩
    · exact ⟨_, h3 hc⟩
  · intro hseq
    have hfwd : phaseIdx o.currentPhase < phaseIdx ph := by omega
    have hne : o.currentPhase ≠ ph := fun hc => by
      rw [hc] at hseq; omega
    simp only [updateOrderPhase, if_neg hpar, if_neg hst]
    rw [if_neg (by omega : ¬ phaseIdx ph < phaseIdx o.currentPhase),
        if_neg (by omega : ¬ phaseIdx o.currentPhase + 1 < phaseIdx ph),
        if_pos hfwd]
    set o₁ : Order := if (o.phases.get o.currentPhase).status = "pending"
      then setPhaseInfo o o.currentPhase
        { o.phases.get o.currentPhase with
          status := "completed", completedAt := some now,
          updatedBy := some u }
      else o with ho₁
    set X : Order := { setPhaseInfo o₁ ph
        { o₁.phases.get ph with
          status := "pending", startedAt := some now,
          updatedBy := some u } with
      currentPhase := ph } with hX
    have hXget : X.phases.get ph =
        { o₁.phases.get ph with
          status := "pending", startedAt := some now,
          updatedBy := some u } := by
      show (Phases.set _ ph _).get ph = _
      rw [Phases.get_set, if_pos rfl]
    refine ⟨_, rfl, ?_, ?_, ?_, ?_⟩
    · rw [(finishOrderUpdate_fields now u nt e d X ph).1]
    · rw [(finishOrderUpdate_fields now u nt e d X ph).2.1, hXget]
    · rw [(finishOrderUpdate_fields now u nt e d X ph).2.2.1, hXget]
    · intro hpend
      have hq : o.currentPhase ≠ X.currentPhase := hne
      rw [finishOrderUpdate_get_ne now u nt e d X hq]
      have hXq : X.phases.get o.currentPhase = o₁.phases.get o.currentPhase := by
        show (Phases.set _ ph _).get _ = _
        rw [Phases.get_set, if_neg (Ne.symm hne)]
      rw [hXq, ho₁, if_pos hpend]
      have : (setPhaseInfo o o.currentPhase
          { o.phases.get o.currentPhase with
            status := "completed", completedAt := some now,
            updatedBy := some u }).phases.get o.currentPhase
          = { o.phases.get o.currentPhase with
              status := "completed", completedAt := some now,
              updatedBy := some u } := by
        rw [setPhaseInfo_get, if_pos rfl]
      rw [this]
      exact ⟨rfl, rfl, rfl⟩

/-- An accepted bid on `r1`, the trigger for order creation. -/
def demoBidAcc : Bid :=
  { id := "b9acc", requirementId := "r1", exporterId := "e9",
    price := 3, currency := "USD", deliveryTime := 2,
    deliveryTimeUnit := "weeks", status := "accepted",
    acceptedAt := some 900, createdAt := 3, updatedAt := 900 }

/-- The exporting counterparty. -/
def userE9 : User := { id := "e9", role := "exporter" }

/-- The importing counterparty. -/
def userI1 : User := { id := "i1", role := "importer" }

/-- The order `createOrderFromBid` derives from `demoBidAcc` at instant
1000 (milliseconds). -/
def demoOrder0 : Order :=
  { id := "ord1", bidId := "b9acc", requirementId := "r1",
    exporterId := "e9", importerId := "i1",
    quantity := 5000, unit := "kg", price := 3, currency := "USD",
    totalValue := 3 * 5000, deliveryLocation := "New York",
    deliveryTime := 2, deliveryTimeUnit := "weeks",
    estimatedDelivery := 1000 + 2 * 7 * 86400000,
    currentPhase := .confirmation, status := "active",
    phases := { confirmation := freshPhase "pending" (some 1000),
                payment := freshPhase "not_started" none,
                production := freshPhase "not_started" none,
                inspection := freshPhase "not_started" none,
                shipping := freshPhase "not_started" none,
                delivery := freshPhase "not_started" none },
    cancellationReason := none, cancelledBy := none, cancelledAt := none,
    createdAt := 1000, updatedAt := 1000 }

/-- `demoOrder0` after a phase update whose explicit target is the current
phase itself: `confirmation` is completed but no successor phase is
opened. -/
def demoOrder1 : Order :=
  { demoOrder0 with
    updatedAt := 2000,
    phases := { demoOrder0.phases with
                confirmation := { status := "completed",
                                  startedAt := some 1000,
                                  completedAt := some 2000,
                                  documents := [], notes := "",
                                  updatedBy := some "e9" } } }

/-- `demoOrder0` moved (hypothetically) to the inspection phase. -/
def demoOrderInspection : Order := { demoOrder0 with currentPhase := .inspection }

/-- Witness for C7: on the freshly created order (current phase
`confirmation`), moving to `production` is rejected as phase skipping, on
the inspection-phase variant moving back to `payment` is rejected as
regression, and moving forward to `payment` succeeds, completes
`confirmation` with completion instant and principal, and opens `payment`
as pending. -/
theorem advance_phase_window_witness :
    updateOrderPhase 2000 "e9" (some .production) none none [] demoOrder0
      = .error "Cannot skip phases" ∧
    updateOrderPhase 2000 "e9" (some .payment) none none [] demoOrderInspection
      = .error "Cannot move to previous phase" ∧
    (∃ o', updateOrderPhase 2000 "e9" (some .payment) none none [] demoOrder0
        = .ok o' ∧
      o'.currentPhase = .payment ∧
      (o'.phases.get .payment).status = "pending" ∧
      (o'.phases.get .payment).startedAt = some 2000 ∧
      ((demoOrder0.phases.get demoOrder0.currentPhase).status = "pending" →
        (o'.phases.get demoOrder0.currentPhase).status = "completed" ∧
        (o'.phases.get demoOrder0.currentPhase).completedAt = some 2000 ∧
        (o'.phases.get demoOrder0.currentPhase).updatedBy = some "e9")) :=
  ⟨(advance_phase_window (Or.inl rfl) rfl).2.2.1 (by decide),
   (advance_phase_window (o := demoOrderInspection) (Or.inl rfl) rfl).2.1
     (by decide),
   (advance_phase_window (Or.inl rfl) rfl).2.2.2.1 (by decide)⟩

/-- Counterexample to C8: a phase update whose explicit target equals the
current phase is accepted (its index is neither below the current one nor
above current+1), completes the current phase, and does not open any other
phase — the reachable result is an active order with zero pending phases,
not exactly one. -/
theorem same_phase_update_zero_pending :
    createOrderFromBid 1000 "ord1" "b9acc" [demoBidAcc] [demoReq]
        [userE9, userI1] = .ok demoOrder0 ∧
    updateOrderPhase 2000 "e9" (some .confirmation) none none [] demoOrder0
      = .ok demoOrder1 ∧
    OrderReachable demoOrder0 demoOrder1 ∧
    demoOrder1.status = "active" ∧
    pendingCount demoOrder1 = 0 :=
  ⟨rfl, rfl,
   Relation.ReflTransGen.single
     (OrderStep.advance 2000 "e9" (some .confirmation) none none [] rfl),
   rfl, rfl⟩

/-- C8 (amended): in every state reachable from creation through
phase-advance, document-attach and cancel, while the order is active every
phase before the current one is completed, every phase after it is
not_started, the current phase is pending *or completed*, and any pending
phase is the current one (so at most one phase is pending — but a
same-phase update can leave the active order with none). -/
theorem order_phase_layout_reachable {now : ℚ} {newId bidId : String}
    {bids : List Bid} {reqs : List Requirement} {users : List User}
    {o₀ o : Order}
    (hc : createOrderFromBid now newId bidId bids reqs users = .ok o₀)
    (hr : OrderReachable o₀ o) :
    o.status = "active" →
      (∀ p, phaseIdx p < phaseIdx o.currentPhase →
        (o.phases.get p).status = "completed") ∧
      (∀ p, phaseIdx o.currentPhase < phaseIdx p →
        (o.phases.get p).status = "not_started") ∧
      ((o.phases.get o.currentPhase).status = "pending" ∨
        (o.phases.get o.currentPhase).status = "completed") ∧
      (∀ p, (o.phases.get p).status = "pending" → p = o.currentPhase) := by
  have hinv : OrderInv o := by
    induction hr with
    | refl => exact createOrderFromBid_inv hc
    | tail _ hs ih => exact orderStep_inv ih hs
  intro ha
  obtain ⟨h1, h2, h3⟩ := hinv ha
  refine ⟨h1, h2, h3, ?_⟩
  intro p hp
  rcases lt_trichotomy (phaseIdx p) (phaseIdx o.currentPhase) with hlt | heq | hgt
  · rw [h1 p hlt] at hp
    exact absurd hp (by decide : ("completed" : String) ≠ "pending")
  · exact phaseIdx_injective heq
  · rw [h2 p hgt] at hp
    exact absurd hp (by decide : ("not_started" : String) ≠ "pending")

/-- Witness for C8 (amended): the freshly created demonstration order. -/
theorem order_phase_layout_reachable_witness :
    (∀ p, phaseIdx p < phaseIdx demoOrder0.currentPhase →
      (demoOrder0.phases.get p).status = "completed") ∧
    (∀ p, phaseIdx demoOrder0.currentPhase < phaseIdx p →
      (demoOrder0.phases.get p).status = "not_started") ∧
    ((demoOrder0.phases.get demoOrder0.currentPhase).status = "pending" ∨
      (demoOrder0.phases.get demoOrder0.currentPhase).status = "completed") ∧
    (∀ p, (demoOrder0.phases.get p).status = "pending" →
      p = demoOrder0.currentPhase) :=
  order_phase_layout_reachable
    (rfl : createOrderFromBid 1000 "ord1" "b9acc" [demoBidAcc] [demoReq]
      [userE9, userI1] = .ok demoOrder0)
    Relation.ReflTransGen.refl rfl

/-- C9: for a counterparty caller, cancelling succeeds exactly when the
order is active and its current phase is confirmation, payment or
production (sequence index at most 2); on success the order becomes
cancelled with the reason, acting principal and instant recorded; past the
window (inspection, shipping, delivery) the cancel fails with a reported
state-conflict error and the order is unchanged. -/
theorem cancel_window {now : ℚ} {u : String} {reason : Option String}
    {o : Order} (hparty : o.exporterId = u ∨ o.importerId = u) :
    ((∃ o', cancelOrder now u reason o = .ok o') ↔
      (o.status = "active" ∧
        (o.currentPhase = .confirmation ∨ o.currentPhase = .payment ∨
          o.currentPhase = .production))) ∧
    (o.status = "active" → phaseIdx o.currentPhase ≤ 2 →
      cancelOrder now u reason o
        = .ok { o with
                status := "cancelled",
                cancellationReason := some (reason.getD ""),
                cancelledBy := some u, cancelledAt := some now,
                updatedAt := now }) ∧
    (o.status = "active" → 2 < phaseIdx o.currentPhase →
      cancelOrder now u reason o
        = .error "Cannot cancel order in current phase" ∧
      runCancelOrder now u reason o = o) := by
  have hpar : ¬(o.exporterId ≠ u ∧ o.importerId ≠ u) := by tauto
  have hsucc : o.status = "active" → phaseIdx o.currentPhase ≤ 2 →
      cancelOrder now u reason o
        = .ok { o with
                status := "cancelled",
                cancellationReason := some (reason.getD ""),
                cancelledBy := some u, cancelledAt := some now,
                updatedAt := now } := by
    intro ha hidx
    simp only [cancelOrder, if_neg hpar, if_neg (not_not_intro ha)]
    rw [if_neg (by omega : ¬ 2 < phaseIdx o.currentPhase)]
  refine ⟨⟨?_, ?_⟩, hsucc, ?_⟩
  · rintro ⟨o', ho'⟩
    simp only [cancelOrder, if_neg hpar] at ho'
    by_cases ha : o.status ≠ "active"
    · rw [if_pos ha] at ho'
      cases ho'
    rw [if_neg ha] at ho'
    by_cases hid : 2 < phaseIdx o.currentPhase
    · rw [if_pos hid] at ho'
      cases ho'
    exact ⟨not_not.mp ha,
      (phaseIdx_le_two_iff o.currentPhase).mp (by omega)⟩
  · rintro ⟨ha, hmem⟩
    exact ⟨_, hsucc ha ((phaseIdx_le_two_iff o.currentPhase).mpr hmem)⟩
  · intro ha hidx
    have herr : cancelOrder now u reason o
        = .error "Cannot cancel order in current phase" := by
      simp only [cancelOrder, if_neg hpar, if_neg (not_not_intro ha)]
      rw [if_pos hidx]
    exact ⟨herr, by simp [runCancelOrder, herr]⟩

/-- Witness for C9: cancelling the confirmation-phase demonstration order
succeeds and records the metadata; cancelling the inspection-phase variant
fails and changes nothing. -/
theorem cancel_window_witness :
    cancelOrder 3000 "i1" (some "too slow") demoOrder0
      = .ok { demoOrder0 with
              status := "cancelled", cancellationReason := some "too slow",
              cancelledBy := some "i1", cancelledAt := some 3000,
              updatedAt := 3000 } ∧
    cancelOrder 3000 "i1" none demoOrderInspection
      = .error "Cannot cancel order in current phase" ∧
    runCancelOrder 3000 "i1" none demoOrderInspection = demoOrderInspection :=
  ⟨(cancel_window (Or.inr rfl)).2.1 rfl (by decide),
   ((cancel_window (o := demoOrderInspection) (Or.inr rfl)).2.2 rfl
     (by decide)).1,
   ((cancel_window (o := demoOrderInspection) (Or.inr rfl)).2.2 rfl
     (by decide)).2⟩

/-- C10: `createOrderFromBid` fails (returning an error, so no order is
produced) whenever no bid with the supplied id has status accepted; when
the accepted bid, its requirement and both counterparty users exist, the
created order has `totalValue = price × quantity`, an estimated delivery
of now plus the delivery time normalized to days (in epoch milliseconds),
overall status active, current phase confirmation pending with a start
instant, and every other phase not_started. -/
theorem createOrder_requires_accepted (now : ℚ) (newId bidId : String)
    (bids : List Bid) (reqs : List Requirement) (users : List User) :
    ((∀ b ∈ bids, b.id = bidId → b.status ≠ "accepted") →
      createOrderFromBid now newId bidId bids reqs users
        = .error "Accepted bid not found") ∧
    (∀ bid r,
      bids.find? (fun b => b.id == bidId && b.status == "accepted") = some bid →
      reqs.find? (fun x => x.id == bid.requirementId) = some r →
      (users.find? (fun x => x.id == bid.exporterId)).isSome →
      (users.find? (fun x => x.id == r.importerId)).isSome →
      (bid.deliveryTimeUnit = "days" ∨ bid.deliveryTimeUnit = "weeks" ∨
        bid.deliveryTimeUnit = "months") →
      ∃ o, createOrderFromBid now newId bidId bids reqs users = .ok o ∧
        o.totalValue = bid.price * r.quantity ∧
        o.estimatedDelivery
          = now + convertToDays bid.deliveryTime bid.deliveryTimeUnit * 86400000 ∧
        o.status = "active" ∧
        o.currentPhase = .confirmation ∧
        (o.phases.get .confirmation).status = "pending" ∧
        (o.phases.get .confirmation).startedAt = some now ∧
        ∀ p : Phase, p ≠ .confirmation →
          (o.phases.get p).status = "not_started") := by
  constructor
  · intro hno
    have hfind : bids.find? (fun b => b.id == bidId && b.status == "accepted")
        = none := by
      rw [List.find?_eq_none]
      intro b hb
      simp only [Bool.and_eq_true, beq_iff_eq, not_and]
      intro hid
      exact fun hst => hno b hb hid hst
    simp only [createOrderFromBid, hfind]
  · intro bid r hbfind hrfind hexp himp hunit
    obtain ⟨eu, heu⟩ := Option.isSome_iff_exists.mp hexp
    obtain ⟨iu, hiu⟩ := Option.isSome_iff_exists.mp himp
    simp only [createOrderFromBid, hbfind, hrfind, heu, hiu]
    rw [if_neg (by simp)]
    refine ⟨_, rfl, rfl, ?_, rfl, rfl, rfl, rfl, ?_⟩
    · rcases hunit with h | h | h <;> rw [h] <;> rfl
    · intro p hp
      cases p <;> first | rfl | (exact absurd rfl hp)

/-- Witness for C10: creation fails on a store holding only an active bid
with the requested id, and succeeds with the stated shape for the accepted
demonstration bid. -/
theorem createOrder_requires_accepted_witness :
    createOrderFromBid 500 "oX" "b9" [bidB9] [demoReq] [userE9, userI1]
      = .error "Accepted bid not found" ∧
    (∃ o, createOrderFromBid 1000 "ord1" "b9acc" [demoBidAcc] [demoReq]
        [userE9, userI1] = .ok o ∧
      o.totalValue = demoBidAcc.price * demoReq.quantity ∧
      o.estimatedDelivery = 1000 + convertToDays demoBidAcc.deliveryTime
        demoBidAcc.deliveryTimeUnit * 86400000 ∧
      o.status = "active" ∧
      o.currentPhase = .confirmation ∧
      (o.phases.get .confirmation).status = "pending" ∧
      (o.phases.get .confirmation).startedAt = some 1000 ∧
      ∀ p : Phase, p ≠ .confirmation →
        (o.phases.get p).status = "not_started") :=
  ⟨(createOrder_requires_accepted 500 "oX" "b9" [bidB9] [demoReq]
      [userE9, userI1]).1 (by decide),
   (createOrder_requires_accepted 1000 "ord1" "b9acc" [demoBidAcc] [demoReq]
      [userE9, userI1]).2 demoBidAcc demoReq rfl rfl rfl rfl
      (Or.inr (Or.inl rfl))⟩

/-- Witness for C2: the awarded demonstration store. -/
theorem accepted_unique_reachable_witness :
    MarketInv demoAwardedState ∧
    (acceptBid 9 "i1" "b8" demoAwardedState
        = .error (.stateConflict "Requirement is not active") ∧
      runAcceptBid 9 "i1" "b8" demoAwardedState = demoAwardedState) :=
  ⟨(accepted_unique_reachable demoAwardedState_inv Relation.ReflTransGen.refl).1,
   (accepted_unique_reachable demoAwardedState_inv Relation.ReflTransGen.refl).2
     9 "i1" "b8" bidB8 demoReqAwarded (by rfl) (by rfl) (by rfl) (by rfl)⟩

end Dashboard
